import Mathlib

/-!
Verification development for the FileShare server.

Each TypeScript function relevant to the verified properties is shallowly
embedded as an executable Lean definition.  Filesystem and OS interaction
(realpath, stat, readdir, file contents, hashing, process probing) is
modelled by explicit oracle parameters, so the embedded functions are pure
and every concrete run can be evaluated by the kernel.  Strings are
modelled by Lean strings, with all primitive string operations implemented
over the underlying character lists so that the kernel can evaluate them;
JavaScript numbers holding byte counts, timestamps and versions are
modelled as Nat / Int, and HLS durations as rationals.
-/

set_option maxHeartbeats 2000000
set_option maxRecDepth 8000

namespace FileShare

/-!  JS string primitives, implemented over character lists. -/

/-- Lowercase one ASCII character.  The server only ever lowercases paths,
header names and user agents, for which JS toLowerCase agrees with the
ASCII mapping. -/
def asciiLower (c : Char) : Char :=
  if 'A' ≤ c ∧ c ≤ 'Z' then Char.ofNat (c.toNat + 32) else c

/-- JS s.toLowerCase() on the ASCII fragment. -/
def lowerStr (s : String) : String := String.mk (s.data.map asciiLower)

/-- JS s.startsWith(pre). -/
def strStartsWith (s pre : String) : Bool := pre.data.isPrefixOf s.data

/-- JS a.includes(b): substring containment over character lists. -/
def listContainsSub : List Char → List Char → Bool
  | [], pat => pat.isEmpty
  | l@(_ :: rest), pat => pat.isPrefixOf l || listContainsSub rest pat

/-- JS s.includes(pat). -/
def strContainsSub (s pat : String) : Bool := listContainsSub s.data pat.data

/-- JS whitespace class (the characters relevant to HTTP strings). -/
def isJsWhitespace (c : Char) : Bool :=
  c = ' ' ∨ c = '\t' ∨ c = '\n' ∨ c = '\r' ∨ c = '\x0b' ∨ c = '\x0c'

/-- JS s.trim(). -/
def jsTrim (s : String) : String :=
  String.mk (((s.data.dropWhile isJsWhitespace).reverse.dropWhile
    isJsWhitespace).reverse)

/-- Split a character list at every occurrence of one separator char. -/
def splitCharList (sep : Char) : List Char → List (List Char)
  | [] => [[]]
  | c :: rest =>
    let tail := splitCharList sep rest
    if c = sep then [] :: tail
    else
      match tail with
      | [] => [[c]]
      | t :: ts => (c :: t) :: ts

/-- JS s.split(sep) for a single-character separator. -/
def strSplitChar (sep : Char) (s : String) : List String :=
  (splitCharList sep s.data).map String.mk

/-- JS array.join(sep). -/
def joinSep (sep : String) : List String → String
  | [] => ""
  | [x] => x
  | x :: rest => x ++ sep ++ joinSep sep rest

/-- JS string repeat of single characters via lists; used by padStart. -/
def padStartWith (c : Char) (width : Nat) (s : String) : String :=
  String.mk (List.replicate (width - s.data.length) c ++ s.data)

/-- Decimal digits with explicit fuel (the fuel only has to dominate the
value, which keeps the recursion structural). -/
def natDigitsF : Nat → Nat → List Nat
  | 0, n => [n % 10]
  | f + 1, n => if n < 10 then [n] else natDigitsF f (n / 10) ++ [n % 10]

/-- Decimal digits of a natural number, most significant first. -/
def natDigits (n : Nat) : List Nat := natDigitsF (n + 1) n

theorem natDigitsF_congr : ∀ n f g, n ≤ f → n ≤ g → natDigitsF f n = natDigitsF g n := by
  intro n
  induction n using Nat.strong_induction_on with
  | _ n ih =>
    intro f g hf hg
    match f, g with
    | 0, 0 => rfl
    | 0, g + 1 =>
      have hn : n = 0 := Nat.le_zero.mp hf
      subst hn
      simp [natDigitsF]
    | f + 1, 0 =>
      have hn : n = 0 := Nat.le_zero.mp hg
      subst hn
      simp [natDigitsF]
    | f + 1, g + 1 =>
      by_cases h : n < 10
      · simp [natDigitsF, h]
      · have hlt : n / 10 < n := Nat.div_lt_self (by omega) (by omega)
        have hf2 : n / 10 ≤ f := by omega
        have hg2 : n / 10 ≤ g := by omega
        simp only [natDigitsF, if_neg h]
        rw [ih (n / 10) hlt f g hf2 hg2]

/-- The intended recursion equation for natDigits. -/
theorem natDigits_unfold (n : Nat) :
    natDigits n = if n < 10 then [n] else natDigits (n / 10) ++ [n % 10] := by
  show natDigitsF (n + 1) n = _
  by_cases h : n < 10
  · simp [natDigitsF, h]
  · simp only [natDigitsF, if_neg h]
    rw [natDigitsF_congr (n / 10) n (n / 10 + 1) (Nat.div_le_self n 10) (Nat.le_succ _)]
    rfl

/-- Decimal rendering of a natural number (JS Number.toString for
non-negative integers). -/
def natToStr (n : Nat) : String :=
  String.mk ((natDigits n).map (fun d => Char.ofNat (48 + d)))

/-- Decimal rendering of an integer. -/
def intToStr (n : Int) : String :=
  if n < 0 then "-" ++ natToStr n.natAbs else natToStr n.natAbs

/-- Value of a decimal digit list (the fold JS parseInt performs once the
digits are scanned). -/
def digitsVal (ds : List Char) : Nat :=
  ds.foldl (fun acc c => acc * 10 + (c.toNat - 48)) 0

def isDigitChar (c : Char) : Bool := '0' ≤ c ∧ c ≤ '9'

/-!  node path.posix helpers (the server always works with forward-slash
paths after its own backslash normalisation). -/

/-- JS s.replace(backslash-global, slash): used to normalise Windows paths. -/
def backslashToSlash (s : String) : String :=
  String.mk (s.data.map (fun c => if c = '\\' then '/' else c))

/-- JS s.replace(leading dot-slash-backslash run, empty): strips every
leading '.', '/' or backslash character. -/
def stripLeadingJunk (s : String) : String :=
  String.mk (s.data.dropWhile (fun c => c = '.' ∨ c = '/' ∨ c = '\\'))

/-- One global non-overlapping replace of ".." by the empty string,
exactly as JS replace with a global regex scans left to right. -/
def removeDotDotList : List Char → List Char
  | [] => []
  | '.' :: '.' :: rest => removeDotDotList rest
  | c :: rest => c :: removeDotDotList rest

def removeDotDot (s : String) : String := String.mk (removeDotDotList s.data)

/-- Trailing-slash stripping, JS s.replace(trailing slash run, empty). -/
def dropTrailingSlashes (s : String) : String :=
  String.mk ((s.data.reverse.dropWhile (fun c => c = '/')).reverse)

/-- Segment processing of node path.posix normalisation: empty and "."
segments vanish and ".." pops the previous segment (at the root of an
absolute path a ".." is dropped). -/
def normSegsStep (isAbs : Bool) (acc : List String) (seg : String) : List String :=
  if seg = "" ∨ seg = "." then acc
  else if seg = ".." then
    match acc with
    | [] => if isAbs then [] else [".."]
    | top :: restAcc => if top = ".." then seg :: acc else restAcc
  else seg :: acc

/-- node path.posix.normalize (trailing-slash preservation is irrelevant to
the server, which never feeds it trailing slashes after cleaning). -/
def posixNormalize (p : String) : String :=
  let isAbs := strStartsWith p "/"
  let segs := strSplitChar '/' p
  let out := (segs.foldl (normSegsStep isAbs) []).reverse
  let body := joinSep "/" out
  if isAbs then (if body = "" then "/" else "/" ++ body)
  else (if body = "" then "." else body)

/-- node path.join of a root and a relative component (the only shape the
server uses): concatenate with a slash and normalise. -/
def pathJoin (a b : String) : String :=
  posixNormalize (if b = "" then a else a ++ "/" ++ b)

/-- node path.basename: the part after the last slash. -/
def basenameStr (p : String) : String :=
  String.mk ((p.data.reverse.takeWhile (fun c => c ≠ '/')).reverse)

/-- node path.dirname: the part before the last slash, or "." when the
path has no slash (root edge cases never arise in the server's use). -/
def dirnameStr (p : String) : String :=
  if strContainsSub p "/" then
    let kept := (p.data.reverse.dropWhile (fun c => c ≠ '/')).reverse
    let trimmed := kept.dropLast
    if trimmed.isEmpty then "/" else String.mk trimmed
  else "."

/-- node path.extname, already lowercased by the callers that need it:
the final dot segment of the basename, empty for dotfiles. -/
def extnameStr (p : String) : String :=
  let base := (basenameStr p).data
  let revExt := base.reverse.takeWhile (fun c => c ≠ '.')
  if revExt.length = base.length then ""
  else if revExt.length + 1 = base.length then ""
  else String.mk ('.' :: revExt.reverse)

/-!  JS Map, modelled as an insertion-ordered association list: set updates
the existing entry in place or appends, get finds the entry, delete
removes it. -/

def mapGet {α : Type} : List (String × α) → String → Option α
  | [], _ => none
  | (k0, v) :: rest, k => if k0 = k then some v else mapGet rest k

def mapSet {α : Type} : List (String × α) → String → α → List (String × α)
  | [], k, v => [(k, v)]
  | (k0, v0) :: rest, k, v =>
    if k0 = k then (k, v) :: rest else (k0, v0) :: mapSet rest k v

def mapDelete {α : Type} : List (String × α) → String → List (String × α)
  | [], _ => []
  | (k0, v0) :: rest, k =>
    if k0 = k then mapDelete rest k else (k0, v0) :: mapDelete rest k

theorem mapGet_mapSet_self {α : Type} (m : List (String × α)) (k : String) (v : α) :
    mapGet (mapSet m k v) k = some v := by
  induction m with
  | nil => simp [mapSet, mapGet]
  | cons p rest ih =>
    obtain ⟨k0, v0⟩ := p
    by_cases hk : k0 = k
    · simp [mapSet, hk, mapGet]
    · simp [mapSet, hk, mapGet, ih]

namespace Files

/-!  src/api/files.ts — safePath, the path-containment guard.  The
filesystem realpath call is an oracle rp : String → Option String, where
none models the thrown error of a nonexistent path. -/

/-- Embedding of safePath from src/api/files.ts: clean the untrusted
relative path (backslashes to slashes, strip leading junk, delete ".."
textually), join with the root, resolve through realpath, then accept iff
the lowercased resolved path has the lowercased root as a plain string
prefix. -/
def safePath (rp : String → Option String) (rootReal relPath : String) :
    Option String :=
  let cleaned := removeDotDot (stripLeadingJunk (backslashToSlash relPath))
  let target := pathJoin rootReal cleaned
  match rp target with
  | none => none
  | some resolved =>
    let normRoot := lowerStr (backslashToSlash rootReal)
    let normResolved := lowerStr (backslashToSlash resolved)
    if strStartsWith normResolved normRoot then some resolved else none

/-- The acceptance condition the specification demands of safePath: the
lowercased canonical root is a prefix of the lowercased canonical result at
a path boundary (equal, or extended by a slash-separated suffix). -/
def specBoundaryContained (rootReal p : String) : Prop :=
  let r := lowerStr (backslashToSlash rootReal)
  let q := lowerStr (backslashToSlash p)
  q = r ∨ strStartsWith q (r ++ "/") = true

instance (rootReal p : String) : Decidable (specBoundaryContained rootReal p) := by
  unfold specBoundaryContained
  exact inferInstanceAs (Decidable (_ ∨ _))

/-- A realpath oracle describing a share root /share that contains a
symlink "link" whose target resolves outside the root, to the sibling
directory /shareevil. -/
def rpC1 : String → Option String :=
  fun s => if s = "/share/link" then some "/shareevil" else none

end Files

/-- A stat record: the fields of node fs.Stats the server consults. -/
structure FStat where
  size : Nat
  isDir : Bool
  mtimeMs : Int
deriving DecidableEq, Repr

namespace Auth

/-!  src/api/auth.ts — block-list membership. -/

/-- Embedding of normalisePath from src/api/auth.ts. -/
def normalisePath (p : String) : String :=
  lowerStr (dropTrailingSlashes (backslashToSlash p))

/-- Embedding of isPathBlocked from src/api/auth.ts: a target is blocked
iff its normalised form equals a list entry or extends one at a slash. -/
def isPathBlocked (blockedPaths : List String) (absolutePath : String) : Bool :=
  if blockedPaths.isEmpty then false
  else
    let normTarget := normalisePath absolutePath
    blockedPaths.any (fun bp =>
      let normBlocked := normalisePath bp
      normTarget = normBlocked || strStartsWith normTarget (normBlocked ++ "/"))

/-!  src/api/auth.ts — users, sessions and token verification.  The HMAC
and random-token primitives are oracles; clock reads are an explicit now
parameter. -/

inductive UserStatus where
  | pending
  | approved
  | denied
deriving DecidableEq, Repr

structure User where
  id : String
  username : String
  passwordHash : String
  salt : String
  ip : String
  status : UserStatus
  oplevel : Nat
  createdAt : String
deriving DecidableEq, Repr

structure Session where
  userId : String
  username : String
  token : String
  ip : String
  expiresAt : Int
deriving DecidableEq, Repr

structure AuthState where
  usersById : List (String × User)
  usernameIndex : List (String × String)
  sessions : List (String × Session)
  ipToUserId : List (String × String)
deriving DecidableEq, Repr

def SESSION_TTL : Int := 24 * 60 * 60 * 1000

/-- Username key normalisation used by getUserByName. -/
def userKey (username : String) : String := lowerStr (jsTrim username)

/-- Embedding of getUserByName. -/
def getUserByName (st : AuthState) (username : String) : Option User :=
  match mapGet st.usernameIndex (userKey username) with
  | none => none
  | some id => mapGet st.usersById id

/-- JS optional Bearer prefix strip in verifyToken. -/
def stripBearer (token : String) : String :=
  if strStartsWith token "Bearer " then String.mk (token.data.drop 7) else token

/-- Embedding of verifyToken: reject missing tokens, drop the session on
expiry, then require the owning user to exist with approved status; on
success return the user's current username.  Returns the possibly updated
state (expired sessions are deleted on lookup). -/
def verifyToken (now : Int) (st : AuthState) (token : Option String) :
    Option String × AuthState :=
  match token with
  | none => (none, st)
  | some t =>
    if t = "" then (none, st)
    else
      let raw := stripBearer t
      match mapGet st.sessions raw with
      | none => (none, st)
      | some session =>
        if now > session.expiresAt then
          (none, { st with sessions := mapDelete st.sessions raw })
        else
          match mapGet st.usersById session.userId with
          | none => (none, st)
          | some user =>
            if user.status = UserStatus.approved then (some user.username, st)
            else (none, st)

structure LoginResult where
  ok : Bool
  token : Option String
  username : Option String
deriving DecidableEq, Repr

/-- Embedding of login.  hashO is the HMAC-SHA256 password hash oracle
(salt then password) and freshToken the generated session token.  The
observed-IP re-indexing and the session insertion mirror the source; the
human-readable messages are not modelled. -/
def login (hashO : String → String → String) (freshToken : String)
    (now : Int) (st : AuthState) (username password ip : String) :
    LoginResult × AuthState :=
  match getUserByName st username with
  | none => (⟨false, none, none⟩, st)
  | some user =>
    if hashO user.salt password ≠ user.passwordHash then (⟨false, none, none⟩, st)
    else if user.status = UserStatus.pending then (⟨false, none, none⟩, st)
    else if user.status = UserStatus.denied then (⟨false, none, none⟩, st)
    else
      let st1 :=
        if user.ip ≠ ip then
          let oldIp := user.ip
          let user1 : User := { user with ip := ip }
          let st1 := { st with usersById := mapSet st.usersById user.id user1 }
          let st1 :=
            if mapGet st1.ipToUserId oldIp = some user.id then
              { st1 with ipToUserId := mapDelete st1.ipToUserId oldIp }
            else st1
          { st1 with ipToUserId := mapSet st1.ipToUserId ip user.id }
        else st
      let session : Session :=
        { userId := user.id, username := user.username, token := freshToken,
          ip := ip, expiresAt := now + SESSION_TTL }
      (⟨true, some freshToken, some user.username⟩,
        { st1 with sessions := mapSet st1.sessions freshToken session })

/-- Embedding of denyUser: mark the user denied and delete every session
owned by that user. -/
def denyUser (st : AuthState) (username : String) : Bool × AuthState :=
  match getUserByName st username with
  | none => (false, st)
  | some user =>
    let user1 : User := { user with status := UserStatus.denied }
    let st1 := { st with usersById := mapSet st.usersById user.id user1 }
    (true, { st1 with sessions := st1.sessions.filter (fun p => p.2.userId ≠ user.id) })

/-- Embedding of deleteUser: delete every session owned by the user, then
remove the user from all indexes. -/
def deleteUser (st : AuthState) (username : String) : Bool × AuthState :=
  match getUserByName st username with
  | none => (false, st)
  | some user =>
    let sessions1 := st.sessions.filter (fun p => p.2.userId ≠ user.id)
    (true,
      { usersById := mapDelete st.usersById user.id,
        usernameIndex := mapDelete st.usernameIndex user.username,
        sessions := sessions1,
        ipToUserId := mapDelete st.ipToUserId user.ip })

theorem mapGet_filter_userId_ne {st : List (String × Session)} {k : String}
    {sess : Session} (hnodup : (st.map Prod.fst).Nodup)
    (hget : mapGet st k = some sess) :
    mapGet (st.filter (fun p => p.2.userId ≠ sess.userId)) k = none := by
  induction st with
  | nil => simp [mapGet] at hget
  | cons p rest ih =>
    obtain ⟨k0, v0⟩ := p
    simp only [List.map_cons, List.nodup_cons] at hnodup
    by_cases hk : k0 = k
    · subst hk
      simp only [mapGet, if_pos rfl] at hget
      obtain rfl := Option.some.inj hget
      simp only [List.filter_cons]
      rw [if_neg (by simp)]
      have hnotin : ∀ q ∈ rest.filter (fun p => p.2.userId ≠ v0.userId), q.1 ≠ k0 := by
        intro q hq hqk
        exact hnodup.1 (hqk ▸ List.mem_map_of_mem Prod.fst (List.mem_of_mem_filter hq))
      clear ih hnodup hget
      induction rest with
      | nil => simp [mapGet]
      | cons q qs ihq =>
        simp only [List.filter_cons]
        by_cases hqu : q.2.userId ≠ v0.userId
        · rw [if_pos (by simpa using hqu)]
          obtain ⟨qk, qv⟩ := q
          simp only [mapGet]
          rw [if_neg ?hne]
          case hne =>
            have := hnotin (qk, qv) (by
              simp only [List.filter_cons]
              rw [if_pos (by simpa using hqu)]
              exact List.mem_cons_self _ _)
            simpa using this
          exact ihq (fun r hr => hnotin r (by
            simp only [List.filter_cons]
            rw [if_pos (by simpa using hqu)]
            exact List.mem_cons_of_mem _ hr))
        · rw [if_neg (by simpa using hqu)]
          exact ihq (fun r hr => hnotin r (by
            simp only [List.filter_cons]
            rw [if_neg (by simpa using hqu)]
            exact hr))
    · simp only [mapGet, if_neg hk] at hget
      simp only [List.filter_cons]
      by_cases hv : v0.userId ≠ sess.userId
      · rw [if_pos (by simpa using hv)]
        simp only [mapGet, if_neg hk]
        exact ih hnodup.2 hget
      · rw [if_neg (by simpa using hv)]
        exact ih hnodup.2 hget

/-- A user and state used to evaluate token verification at the
exact-expiry instant: alice approved, one session issued at time 0. -/
def userC4 : User :=
  ⟨"u1", "alice", "h", "s", "1.1.1.1", UserStatus.approved, 1, "t0"⟩

def stC4 : AuthState :=
  ⟨[("u1", userC4)], [("alice", "u1")],
    [("T", ⟨"u1", "alice", "T", "1.1.1.1", 86400000⟩)], [("1.1.1.1", "u1")]⟩

end Auth

namespace FileOps

/-!  src/api/fileops.ts — handleDelete.  Responses are modelled by their
status code; the only filesystem mutation the handler can perform is the
recursive removal, recorded in an effect list. -/

inductive FsEff where
  | rmRec (p : String)
deriving DecidableEq, Repr

structure DeleteEnv where
  rp : String → Option String
  blockedPaths : List String
  statO : String → Option FStat

/-- Embedding of handleDelete from src/api/fileops.ts.  bodyPath models the
parsed JSON body field path (none or empty string are both falsy).  Returns
the HTTP status and the filesystem effects performed. -/
def handleDelete (env : DeleteEnv) (rootReal : String)
    (bodyPath : Option String) : Nat × List FsEff :=
  let relPath := bodyPath.getD ""
  if relPath = "" then (400, [])
  else
    match Files.safePath env.rp rootReal relPath with
    | none => (404, [])
    | some resolved =>
      if Auth.isPathBlocked env.blockedPaths resolved then (403, [])
      else
        let resolvedNorm := lowerStr (backslashToSlash resolved)
        let rootNorm := lowerStr (backslashToSlash rootReal)
        if resolvedNorm = rootNorm then (403, [])
        else
          match env.statO resolved with
          | none => (500, [])
          | some _st => (200, [FsEff.rmRec resolved])

end FileOps


namespace RateLimit

/-!  src/api/rateLimit.ts — the per-(target, IP) fixed-window limiter.
The settings read is modelled by passing the raw rule; getRule applies the
same clamps as the source (at least 1 request, at least 1000 ms). -/

structure RateLimitRule where
  enabled : Bool
  maxRequests : Nat
  windowMs : Nat
deriving DecidableEq, Repr

structure RateLimitBucket where
  count : Nat
  windowStart : Int
deriving DecidableEq, Repr

structure RateLimitCheckResult where
  allowed : Bool
  retryAfterSec : Option Nat := none
  limit : Option Nat := none
  remaining : Option Nat := none
deriving DecidableEq, Repr

/-- Embedding of getRule: coerce enabled to a Bool and clamp the numbers
(maxRequests at least 1, windowMs at least 1000). -/
def getRule (raw : RateLimitRule) : RateLimitRule :=
  ⟨raw.enabled, max 1 raw.maxRequests, max 1000 raw.windowMs⟩

def rlKey (target ip : String) : String := target ++ ":" ++ ip

/-- Embedding of checkIpRateLimit: disabled rules always allow; an absent
or stale bucket resets to count 1 at now and allows; a full bucket denies
with the ceiling of the remaining window in seconds; otherwise the count
is incremented and the request allowed. -/
def checkIpRateLimit (rawRule : RateLimitRule) (target ip : String) (now : Int)
    (bucketsByKey : List (String × RateLimitBucket)) :
    RateLimitCheckResult × List (String × RateLimitBucket) :=
  let rule := getRule rawRule
  if !rule.enabled then ({ allowed := true }, bucketsByKey)
  else
    let key := rlKey target ip
    let reset : RateLimitCheckResult × List (String × RateLimitBucket) :=
      ({ allowed := true, limit := some rule.maxRequests,
         remaining := some (rule.maxRequests - 1) },
       mapSet bucketsByKey key ⟨1, now⟩)
    match mapGet bucketsByKey key with
    | none => reset
    | some bucket =>
      if now - bucket.windowStart ≥ (rule.windowMs : Int) then reset
      else if bucket.count ≥ rule.maxRequests then
        let retryAfterMs : Int := max 0 ((rule.windowMs : Int) - (now - bucket.windowStart))
        ({ allowed := false,
           retryAfterSec := some ((retryAfterMs.toNat + 999) / 1000),
           limit := some rule.maxRequests, remaining := some 0 },
         bucketsByKey)
      else
        ({ allowed := true, limit := some rule.maxRequests,
           remaining := some (rule.maxRequests - (bucket.count + 1)) },
         mapSet bucketsByKey key ⟨bucket.count + 1, bucket.windowStart⟩)

/-- Fold a list of request times through the limiter (single target and
IP), collecting each check result. -/
def runRateChecks (rawRule : RateLimitRule) (target ip : String)
    (times : List Int) (buckets : List (String × RateLimitBucket)) :
    List RateLimitCheckResult × List (String × RateLimitBucket) :=
  match times with
  | [] => ([], buckets)
  | t :: rest =>
    let step := checkIpRateLimit rawRule target ip t buckets
    let restRun := runRateChecks rawRule target ip rest step.2
    (step.1 :: restRun.1, restRun.2)

def countAllowed (rs : List RateLimitCheckResult) : Nat :=
  (rs.filter (fun r => r.allowed)).length

theorem countAllowed_cons (r : RateLimitCheckResult) (rs : List RateLimitCheckResult) :
    countAllowed (r :: rs) = (if r.allowed then 1 else 0) + countAllowed rs := by
  simp only [countAllowed, List.filter_cons]
  by_cases h : r.allowed
  · simp [h, Nat.add_comm]
  · simp [h]

/-- Within one bucket window, a run starting from a bucket holding count c
allows at most maxRequests minus c further requests. -/
theorem run_inWindow_allowed_le (rawRule : RateLimitRule)
    (henabled : rawRule.enabled = true) (target ip : String) :
    ∀ (rest : List Int) (c : Nat) (t : Int)
      (buckets : List (String × RateLimitBucket)),
      mapGet buckets (rlKey target ip) = some ⟨c, t⟩ →
      1 ≤ c →
      (∀ u ∈ rest, t ≤ u ∧ u - t < (max 1000 rawRule.windowMs : Nat)) →
      countAllowed (runRateChecks rawRule target ip rest buckets).1 ≤
        max 1 rawRule.maxRequests - c := by
  intro rest
  induction rest with
  | nil =>
    intro c t buckets hget hc hwin
    simp [runRateChecks, countAllowed]
  | cons u us ih =>
    intro c t buckets hget hc hwin
    have hu := hwin u (List.mem_cons_self u us)
    have hfresh : ¬ (u - t ≥ ((max 1000 rawRule.windowMs : Nat) : Int)) := by
      push_neg
      exact_mod_cast hu.2
    simp only [runRateChecks]
    by_cases hfull : c ≥ max 1 rawRule.maxRequests
    · have hstep : checkIpRateLimit rawRule target ip u buckets =
          ({ allowed := false,
             retryAfterSec := some (((max 0 (((max 1000 rawRule.windowMs : Nat) : Int) - (u - t))).toNat + 999) / 1000),
             limit := some (max 1 rawRule.maxRequests), remaining := some 0 },
           buckets) := by
        simp only [checkIpRateLimit, getRule, henabled, Bool.not_true,
          Bool.false_eq_true, if_false, hget, if_neg hfresh, if_pos hfull]
      rw [hstep]
      have hrec := ih c t buckets hget hc (fun v hv => hwin v (List.mem_cons_of_mem u hv))
      rw [countAllowed_cons]
      simpa using hrec
    · have hstep : checkIpRateLimit rawRule target ip u buckets =
          ({ allowed := true, limit := some (max 1 rawRule.maxRequests),
             remaining := some (max 1 rawRule.maxRequests - (c + 1)) },
           mapSet buckets (rlKey target ip) ⟨c + 1, t⟩) := by
        simp only [checkIpRateLimit, getRule, henabled, Bool.not_true,
          Bool.false_eq_true, if_false, hget, if_neg hfresh, if_neg hfull]
      rw [hstep]
      have hrec := ih (c + 1) t (mapSet buckets (rlKey target ip) ⟨c + 1, t⟩)
        (mapGet_mapSet_self _ _ _) (by omega)
        (fun v hv => hwin v (List.mem_cons_of_mem u hv))
      rw [countAllowed_cons]
      simp only [if_pos rfl, if_true]
      have h1M : 1 ≤ max 1 rawRule.maxRequests := Nat.le_max_left _ _
      have hlt : c < max 1 rawRule.maxRequests := Nat.lt_of_not_le hfull
      generalize hM : max 1 rawRule.maxRequests = M at hrec hlt h1M ⊢
      omega

end RateLimit


namespace Settings

/-!  src/settings.ts — the versioned settings store.  JSON values are a
first-class inductive; numbers are modelled as integers (the loader only
compares and floors version fields, which are integral in every persisted
file, so the fractional and exotic Number coercions are out of scope).
deepClone is the identity on these pure JSON values.  Module registry and
migration registry are passed explicitly. -/

inductive Json where
  | null
  | bool (b : Bool)
  | num (n : Int)
  | str (s : String)
  | arr (xs : List Json)
  | obj (fields : List (String × Json))

/-- The current settings version from src/version.ts. -/
def CURRENT_SETTINGS_VERSION : Int := 3

/-- Embedding of asRecord: a plain object (not null, not an array). -/
def asRecord : Json → Option (List (String × Json))
  | Json.obj fields => some fields
  | _ => none

/-- Decimal integer strings accepted by the JS Number coercion; the empty
(trimmed) string coerces to 0. -/
def decStrToInt : String → Option Int :=
  fun s =>
    match s.data with
    | [] => some 0
    | '-' :: ds =>
      if ds ≠ [] ∧ ds.all isDigitChar then some (-(digitsVal ds : Int)) else none
    | ds => if ds.all isDigitChar then some (digitsVal ds) else none

/-- JS Number coercion on JSON values, returning none for NaN. -/
def jsNumber : Json → Option Int
  | Json.null => some 0
  | Json.bool b => some (if b then 1 else 0)
  | Json.num n => some n
  | Json.str s => decStrToInt (jsTrim s)
  | Json.arr [] => some 0
  | Json.arr [x] => jsNumber x
  | Json.arr (_ :: _ :: _) => none
  | Json.obj _ => none

/-- JS property access on an arbitrary value: defined on objects,
undefined (none) elsewhere. -/
def jsGetProp (v : Json) (k : String) : Option Json :=
  match v with
  | Json.obj fields => mapGet fields k
  | _ => none

/-- Number(rawRecord subscript "settings-version"), as the loader computes
it: NaN (none) when the input is not a record or the field is missing or
non-numeric. -/
def rawVersionOf (raw : Json) : Option Int :=
  match asRecord raw with
  | none => none
  | some fields =>
    match mapGet fields "settings-version" with
    | none => none
    | some v => jsNumber v

/-- The normalised settings file: the integer settings-version and the
modules record. -/
structure SettingsFile where
  version : Int
  modules : List (String × Json)

/-- Embedding of mergeModuleDefaults: spread the raw modules, then add the
registered default for every missing key (deepClone of a JSON value is the
value itself). -/
def mergeModuleDefaults (registry : List (String × Json))
    (rawModules : List (String × Json)) : List (String × Json) :=
  registry.foldl (fun merged p =>
    match mapGet merged p.1 with
    | none => merged ++ [(p.1, p.2)]
    | some _ => merged) rawModules

/-- One migration maps the current SettingsFile to an arbitrary value; the
loader then re-extracts its modules record. -/
def migrateLoop (migs : Int → Option (SettingsFile → Json)) :
    Nat → SettingsFile → SettingsFile
  | 0, s => s
  | Nat.succ fuel, s =>
    if s.version < CURRENT_SETTINGS_VERSION then
      match migs s.version with
      | some migration =>
        let migrated := migration s
        let migratedModules :=
          match jsGetProp migrated "modules" with
          | some m => (asRecord m).getD []
          | none => []
        migrateLoop migs fuel ⟨s.version + 1, migratedModules⟩
      | none => migrateLoop migs fuel ⟨s.version + 1, s.modules⟩
    else s

/-- Embedding of normalizeAndMigrate: classify the raw value (non-record,
record without a numeric version, record with a numeric version), run the
migration chain up to the current version, then overlay registered
defaults.  The while loop advances the version by exactly one per
iteration, so it is modelled with fuel CURRENT minus the starting
version. -/
def normalizeRaw (raw : Json) : SettingsFile :=
  match asRecord raw with
  | none => ⟨0, []⟩
  | some fields =>
    match rawVersionOf raw with
    | none =>
      let cleanedModules :=
        match mapGet fields "modules" with
        | some m =>
          match asRecord m with
          | some r => r
          | none =>
            fields.filter (fun p => p.1 ≠ "settings-version" ∧ p.1 ≠ "modules")
        | none =>
          fields.filter (fun p => p.1 ≠ "settings-version" ∧ p.1 ≠ "modules")
      ⟨0, cleanedModules⟩
    | some v =>
      ⟨v, match mapGet fields "modules" with
        | some m => (asRecord m).getD []
        | none => []⟩

def normalizeAndMigrate (registry : List (String × Json))
    (migs : Int → Option (SettingsFile → Json)) (raw : Json) : SettingsFile :=
  let normalized := normalizeRaw raw
  let migrated := migrateLoop migs
    (CURRENT_SETTINGS_VERSION - normalized.version).toNat normalized
  ⟨migrated.version, mergeModuleDefaults registry migrated.modules⟩

/-- Feeding the returned SettingsFile back into the loader, as the nested
call normalize(normalize(x)) does, serialises it as the JSON object it is
in memory. -/
def toJson (s : SettingsFile) : Json :=
  Json.obj [("settings-version", Json.num s.version), ("modules", Json.obj s.modules)]

theorem mapGet_append_of_some {α : Type} {m : List (String × α)} {k : String}
    {v : α} (h : mapGet m k = some v) (l : List (String × α)) :
    mapGet (m ++ l) k = some v := by
  induction m with
  | nil => simp [mapGet] at h
  | cons p rest ih =>
    obtain ⟨k0, v0⟩ := p
    by_cases hk : k0 = k
    · simp only [mapGet, if_pos hk] at h
      simp [mapGet, hk, h]
    · simp only [mapGet, if_neg hk] at h
      simp [mapGet, hk, ih h]

theorem mapGet_append_single_self {α : Type} {m : List (String × α)} {k : String}
    (h : mapGet m k = none) (v : α) :
    mapGet (m ++ [(k, v)]) k = some v := by
  induction m with
  | nil => simp [mapGet]
  | cons p rest ih =>
    obtain ⟨k0, v0⟩ := p
    by_cases hk : k0 = k
    · simp only [mapGet, if_pos hk] at h
      exact Option.noConfusion h
    · simp only [mapGet, if_neg hk] at h
      simp [mapGet, hk, ih h]

theorem mergeModuleDefaults_preserves {registry m : List (String × Json)}
    {k : String} {v : Json} (h : mapGet m k = some v) :
    mapGet (mergeModuleDefaults registry m) k = some v := by
  induction registry generalizing m with
  | nil => simpa [mergeModuleDefaults] using h
  | cons p reg ih =>
    simp only [mergeModuleDefaults, List.foldl_cons]
    cases hp : mapGet m p.1 with
    | none =>
      simp only [hp]
      exact ih (mapGet_append_of_some h [(p.1, p.2)])
    | some w =>
      simp only [hp]
      exact ih h

theorem mergeModuleDefaults_mem_ne_none (registry m : List (String × Json)) :
    ∀ p ∈ registry, mapGet (mergeModuleDefaults registry m) p.1 ≠ none := by
  induction registry generalizing m with
  | nil => intro p hp; simp at hp
  | cons q reg ih =>
    intro p hp
    simp only [mergeModuleDefaults, List.foldl_cons]
    rcases List.mem_cons.mp hp with hpq | hpm
    · subst hpq
      cases hq : mapGet m p.1 with
      | none =>
        simp only [hq]
        have hself := mapGet_append_single_self hq p.2
        have := @mergeModuleDefaults_preserves reg _ _ _ hself
        simp only [mergeModuleDefaults] at this
        simp [this]
      | some w =>
        simp only [hq]
        have := @mergeModuleDefaults_preserves reg _ _ _ hq
        simp only [mergeModuleDefaults] at this
        simp [this]
    · cases hq : mapGet m q.1 with
      | none => simp only [hq]; exact ih _ p hpm
      | some w => simp only [hq]; exact ih _ p hpm

theorem mergeModuleDefaults_of_all_present {registry m : List (String × Json)}
    (h : ∀ p ∈ registry, mapGet m p.1 ≠ none) :
    mergeModuleDefaults registry m = m := by
  induction registry with
  | nil => rfl
  | cons q reg ih =>
    simp only [mergeModuleDefaults, List.foldl_cons]
    cases hq : mapGet m q.1 with
    | none => exact absurd hq (h q (List.mem_cons_self q reg))
    | some w =>
      simp only [hq]
      exact ih (fun p hp => h p (List.mem_cons_of_mem q hp))

theorem mergeModuleDefaults_idem (registry m : List (String × Json)) :
    mergeModuleDefaults registry (mergeModuleDefaults registry m) =
      mergeModuleDefaults registry m :=
  mergeModuleDefaults_of_all_present
    (mergeModuleDefaults_mem_ne_none registry m)

theorem migrateLoop_of_ge (migs : Int → Option (SettingsFile → Json))
    (fuel : Nat) (s : SettingsFile)
    (h : s.version ≥ CURRENT_SETTINGS_VERSION) :
    migrateLoop migs fuel s = s := by
  cases fuel with
  | zero => rfl
  | succ n =>
    simp only [migrateLoop]
    rw [if_neg (by omega)]

theorem migrateLoop_version (migs : Int → Option (SettingsFile → Json)) :
    ∀ (fuel : Nat) (s : SettingsFile),
      fuel = (CURRENT_SETTINGS_VERSION - s.version).toNat →
      (migrateLoop migs fuel s).version =
        if s.version < CURRENT_SETTINGS_VERSION then CURRENT_SETTINGS_VERSION
        else s.version := by
  intro fuel
  induction fuel with
  | zero =>
    intro s hfuel
    have hge : ¬ s.version < CURRENT_SETTINGS_VERSION := by omega
    simp [migrateLoop, hge]
  | succ n ih =>
    intro s hfuel
    by_cases hv : s.version < CURRENT_SETTINGS_VERSION
    · have key : ∀ (m : List (String × Json)),
          (migrateLoop migs n ⟨s.version + 1, m⟩).version =
            if s.version + 1 < CURRENT_SETTINGS_VERSION then
              CURRENT_SETTINGS_VERSION
            else s.version + 1 := by
        intro m
        have hih := ih ⟨s.version + 1, m⟩ (by simp; omega)
        simpa using hih
      simp only [migrateLoop, if_pos hv]
      cases hm : migs s.version with
      | some migration =>
        simp only [hm]
        rw [key]
        by_cases h2 : s.version + 1 < CURRENT_SETTINGS_VERSION
        · simp [h2]
        · rw [if_neg h2]; omega
      | none =>
        simp only [hm]
        rw [key]
        by_cases h2 : s.version + 1 < CURRENT_SETTINGS_VERSION
        · simp [h2]
        · rw [if_neg h2]; omega
    · simp only [migrateLoop, if_neg hv, if_neg hv]

theorem normalizeAndMigrate_version_ge (registry : List (String × Json))
    (migs : Int → Option (SettingsFile → Json)) (raw : Json) :
    (normalizeAndMigrate registry migs raw).version ≥
      CURRENT_SETTINGS_VERSION := by
  simp only [normalizeAndMigrate]
  rw [migrateLoop_version migs _ (normalizeRaw raw) rfl]
  split <;> omega

theorem normalizeRaw_toJson (s : SettingsFile) : normalizeRaw (toJson s) = s := rfl

theorem normalizeRaw_version_of_none {raw : Json}
    (h : rawVersionOf raw = none) : (normalizeRaw raw).version = 0 := by
  unfold normalizeRaw
  cases hrec : asRecord raw with
  | none => rfl
  | some fields => simp only [h]

theorem normalizeRaw_version_of_some {raw : Json} {v : Int}
    (h : rawVersionOf raw = some v) : (normalizeRaw raw).version = v := by
  unfold normalizeRaw
  cases hrec : asRecord raw with
  | none =>
    unfold rawVersionOf at h
    rw [hrec] at h
    exact Option.noConfusion h
  | some fields => simp only [h]

theorem normalizeAndMigrate_modules_merged (registry : List (String × Json))
    (migs : Int → Option (SettingsFile → Json)) (raw : Json) :
    ∃ m0, (normalizeAndMigrate registry migs raw).modules =
      mergeModuleDefaults registry m0 := by
  exact ⟨_, rfl⟩

end Settings


namespace Bridge

/-!  src/api/haproxyBridge.ts — injectForwardHeaders.  The spliced request
is a byte buffer, modelled as a list of characters.  Buffer.indexOf and
String.split are implemented as left-to-right scans, matching JS. -/

def crlf : List Char := ['\r', '\n']

def crlfcrlf : List Char := ['\r', '\n', '\r', '\n']

/-- Left-to-right first occurrence of a separator: returns the part before
the first occurrence and the part after it (JS indexOf plus slicing). -/
def splitFirstSub (sep : List Char) : List Char → Option (List Char × List Char)
  | [] => if sep.isEmpty then some ([], []) else none
  | c :: rest =>
    match sep.isPrefixOf (c :: rest), splitFirstSub sep rest with
    | true, _ => some ([], (c :: rest).drop sep.length)
    | false, some (a, b) => some (c :: a, b)
    | false, none => none

theorem splitFirstSub_snd_lt (sep : List Char) (hsep : sep ≠ []) :
    ∀ l a b, splitFirstSub sep l = some (a, b) → b.length < l.length := by
  intro l
  induction l with
  | nil =>
    intro a b h
    simp [splitFirstSub, List.isEmpty_iff, hsep] at h
  | cons c rest ih =>
    intro a b h
    cases hp : sep.isPrefixOf (c :: rest) with
    | true =>
      simp only [splitFirstSub, hp] at h
      obtain ⟨ha, hb⟩ := Prod.mk.injEq .. ▸ Option.some.inj h
      have hlen : sep.length ≤ (c :: rest).length :=
        (List.isPrefixOf_iff_prefix.mp hp).length_le
      have hpos : 0 < sep.length := List.length_pos.mpr hsep
      rw [← hb]
      simp only [List.length_drop]
      simp only [List.length_cons] at hlen ⊢
      omega
    | false =>
      cases hsplit : splitFirstSub sep rest with
      | none =>
        simp only [splitFirstSub, hp, hsplit] at h
        exact Option.noConfusion h
      | some ab =>
        obtain ⟨a0, b0⟩ := ab
        simp only [splitFirstSub, hp, hsplit] at h
        obtain ⟨ha, hb⟩ := Prod.mk.injEq .. ▸ Option.some.inj h
        rw [← hb]
        exact Nat.lt_succ_of_lt (ih a0 b0 hsplit)

/-- JS s.split(sep) for a multi-character separator: repeated first-split. -/
def splitOnList (sep : List Char) (l : List Char) : List (List Char) :=
  if hsep : sep = [] then [l]
  else
    match hsplit : splitFirstSub sep l with
    | none => [l]
    | some (a, b) => a :: splitOnList sep b
termination_by l.length
decreasing_by exact splitFirstSub_snd_lt sep hsep l a b hsplit

/-- Scanning for a separator whose first character does not occur in a
leading chunk passes over that chunk unchanged. -/
theorem splitFirstSub_skip (h : Char) (sep : List Char) (hs : sep = h :: sep.tail) :
    ∀ x : List Char, h ∉ x → ∀ y,
      splitFirstSub sep (x ++ y) =
        (splitFirstSub sep y).map (fun p => (x ++ p.1, p.2)) := by
  intro x
  induction x with
  | nil =>
    intro _ y
    simp only [List.nil_append]
    cases hsplit : splitFirstSub sep y with
    | none => simp
    | some p => simp
  | cons c rest ih =>
    intro hnotin y
    have hc : c ≠ h := by
      intro hch
      exact hnotin (hch ▸ List.mem_cons_self c rest)
    have hbeq : (h == c) = false := beq_eq_false_iff_ne.mpr (fun hh => hc hh.symm)
    have hpre : sep.isPrefixOf (c :: (rest ++ y)) = false := by
      rw [hs]
      simp only [List.isPrefixOf, hbeq, Bool.false_and]
    have hrest := ih (fun hm => hnotin (List.mem_cons_of_mem c hm)) y
    show splitFirstSub sep (c :: (rest ++ y)) = _
    cases hsplit : splitFirstSub sep y with
    | none =>
      rw [hsplit] at hrest
      simp only [Option.map_none'] at hrest
      simp only [splitFirstSub, hpre, hrest, hsplit, Option.map_none']
    | some p =>
      obtain ⟨pa, pb⟩ := p
      rw [hsplit] at hrest
      simp only [Option.map_some'] at hrest
      simp only [splitFirstSub, hpre, hrest, hsplit, Option.map_some']
      simp

theorem intercalate_one (sep l : List Char) : List.intercalate sep [l] = l := by
  simp [List.intercalate]

theorem intercalate_two (sep l l1 : List Char) (ls : List (List Char)) :
    List.intercalate sep (l :: l1 :: ls) =
      l ++ sep ++ List.intercalate sep (l1 :: ls) := by
  simp [List.intercalate, List.intersperse, List.append_assoc]

theorem splitFirstSub_self_append (sep b : List Char) (hsep : sep ≠ []) :
    splitFirstSub sep (sep ++ b) = some ([], b) := by
  cases sep with
  | nil => exact absurd rfl hsep
  | cons s0 stl =>
    have hpre : (s0 :: stl).isPrefixOf (s0 :: (stl ++ b)) = true := by
      have h1 : (s0 :: stl) ++ b = s0 :: (stl ++ b) := rfl
      exact h1 ▸ List.isPrefixOf_iff_prefix.mpr ⟨b, rfl⟩
    rw [show splitFirstSub (s0 :: stl) ((s0 :: stl) ++ b) =
        match (s0 :: stl).isPrefixOf (s0 :: (stl ++ b)),
          splitFirstSub (s0 :: stl) (stl ++ b) with
        | true, _ => some ([], (s0 :: (stl ++ b)).drop (s0 :: stl).length)
        | false, some (a, c) => some (s0 :: a, c)
        | false, none => none
      from rfl]
    rw [hpre]
    show some ([], (s0 :: (stl ++ b)).drop (s0 :: stl).length) = some ([], b)
    rw [show s0 :: (stl ++ b) = (s0 :: stl) ++ b from rfl, List.drop_left]

/-- Splitting the CRLF-joined header lines recovers exactly the lines,
provided each line is free of carriage returns. -/
theorem splitOnList_intercalate (lines : List (List Char))
    (hlines : ∀ l ∈ lines, l ≠ [] ∧ '\r' ∉ l) (hne : lines ≠ []) :
    splitOnList crlf (List.intercalate crlf lines) = lines := by
  induction lines with
  | nil => exact absurd rfl hne
  | cons l ls ih =>
    have hl := hlines l (List.mem_cons_self l ls)
    cases ls with
    | nil =>
      rw [intercalate_one crlf]
      rw [splitOnList]
      rw [dif_neg (by decide : ¬ crlf = [])]
      have hnone : splitFirstSub crlf l = none := by
        have := splitFirstSub_skip '\r' crlf rfl l hl.2 []
        rw [List.append_nil] at this
        rw [this]
        rfl
      split
      next _heq => rfl
      next a b heq =>
        rw [hnone] at heq
        exact Option.noConfusion heq
    | cons l1 ls1 =>
      rw [intercalate_two crlf]
      rw [splitOnList]
      rw [dif_neg (by decide : ¬ crlf = [])]
      have hfirst : splitFirstSub crlf (l ++ (crlf ++ List.intercalate crlf (l1 :: ls1))) =
          some (l, List.intercalate crlf (l1 :: ls1)) := by
        rw [splitFirstSub_skip '\r' crlf rfl l hl.2]
        rw [splitFirstSub_self_append crlf _ (by decide)]
        simp
      split
      next heq =>
        rw [List.append_assoc, hfirst] at heq
        exact Option.noConfusion heq
      next a b heq =>
        rw [List.append_assoc, hfirst] at heq
        have h2 := Option.some.inj heq
        cases h2
        exact congrArg (l :: ·)
          (ih (fun x hx => hlines x (List.mem_cons_of_mem l hx)) (by simp))

/-- The first CRLFCRLF in header-lines ++ CRLFCRLF ++ body sits exactly at
the end of the header lines, provided each line is nonempty and free of
carriage returns. -/
theorem splitFirstSub_header_end (lines : List (List Char)) (body : List Char)
    (hlines : ∀ l ∈ lines, l ≠ [] ∧ '\r' ∉ l) (hne : lines ≠ []) :
    splitFirstSub crlfcrlf (List.intercalate crlf lines ++ crlfcrlf ++ body) =
      some (List.intercalate crlf lines, body) := by
  induction lines with
  | nil => exact absurd rfl hne
  | cons l ls ih =>
    have hl := hlines l (List.mem_cons_self l ls)
    cases ls with
    | nil =>
      rw [intercalate_one crlf, List.append_assoc]
      rw [splitFirstSub_skip '\r' crlfcrlf rfl l hl.2]
      rw [splitFirstSub_self_append crlfcrlf body (by decide)]
      simp
    | cons l1 ls1 =>
      have hl1 := hlines l1 (List.mem_cons_of_mem l (List.mem_cons_self l1 ls1))
      obtain ⟨c1, l1tl, hc1⟩ : ∃ c1 l1tl, l1 = c1 :: l1tl := by
        cases l1 with
        | nil => exact absurd rfl hl1.1
        | cons a b => exact ⟨a, b, rfl⟩
      have hc1r : c1 ≠ '\r' := by
        intro hcr
        exact hl1.2 (hc1 ▸ hcr ▸ List.mem_cons_self c1 l1tl)
      rw [intercalate_two crlf]
      simp only [List.append_assoc]
      rw [splitFirstSub_skip '\r' crlfcrlf rfl l hl.2]
      have hmid : splitFirstSub crlfcrlf
          (crlf ++ (List.intercalate crlf (l1 :: ls1) ++ (crlfcrlf ++ body))) =
          some (crlf ++ List.intercalate crlf (l1 :: ls1), body) := by
        have hihs := ih (fun x hx => hlines x (List.mem_cons_of_mem l hx)) (by simp)
        rw [List.append_assoc] at hihs
        obtain ⟨w, hw⟩ : ∃ w, List.intercalate crlf (l1 :: ls1) ++ (crlfcrlf ++ body) =
            c1 :: w := by
          cases ls1 with
          | nil =>
            rw [intercalate_one crlf, hc1]
            exact ⟨l1tl ++ (crlfcrlf ++ body), by simp⟩
          | cons a b =>
            rw [intercalate_two crlf, hc1]
            exact ⟨(l1tl ++ (crlf ++ List.intercalate crlf (a :: b))) ++ (crlfcrlf ++ body),
              by simp⟩
        show splitFirstSub crlfcrlf
            ('\r' :: '\n' :: (List.intercalate crlf (l1 :: ls1) ++ (crlfcrlf ++ body))) = _
        have hbeqc1 : (('\r' : Char) == c1) = false :=
          beq_eq_false_iff_ne.mpr (fun hh => hc1r hh.symm)
        have hnp1 : crlfcrlf.isPrefixOf
            ('\r' :: '\n' :: (List.intercalate crlf (l1 :: ls1) ++ (crlfcrlf ++ body))) =
            false := by
          rw [hw]
          show crlfcrlf.isPrefixOf ('\r' :: '\n' :: c1 :: w) = false
          simp only [crlfcrlf, List.isPrefixOf, hbeqc1]
          simp
        have hnp2 : crlfcrlf.isPrefixOf
            ('\n' :: (List.intercalate crlf (l1 :: ls1) ++ (crlfcrlf ++ body))) = false := by
          simp only [crlfcrlf, List.isPrefixOf]
          rw [show (('\r' : Char) == '\n') = false from rfl]
          simp
        rw [show splitFirstSub crlfcrlf
            ('\r' :: '\n' :: (List.intercalate crlf (l1 :: ls1) ++ (crlfcrlf ++ body))) =
            match crlfcrlf.isPrefixOf
                ('\r' :: '\n' :: (List.intercalate crlf (l1 :: ls1) ++ (crlfcrlf ++ body))),
              splitFirstSub crlfcrlf
                ('\n' :: (List.intercalate crlf (l1 :: ls1) ++ (crlfcrlf ++ body))) with
            | true, _ => some ([], ('\r' :: '\n' :: (List.intercalate crlf (l1 :: ls1) ++
                (crlfcrlf ++ body))).drop crlfcrlf.length)
            | false, some (a, b) => some ('\r' :: a, b)
            | false, none => none
          from rfl]
        rw [hnp1]
        rw [show splitFirstSub crlfcrlf
            ('\n' :: (List.intercalate crlf (l1 :: ls1) ++ (crlfcrlf ++ body))) =
            match crlfcrlf.isPrefixOf
                ('\n' :: (List.intercalate crlf (l1 :: ls1) ++ (crlfcrlf ++ body))),
              splitFirstSub crlfcrlf
                (List.intercalate crlf (l1 :: ls1) ++ (crlfcrlf ++ body)) with
            | true, _ => some ([], ('\n' :: (List.intercalate crlf (l1 :: ls1) ++
                (crlfcrlf ++ body))).drop crlfcrlf.length)
            | false, some (a, b) => some ('\n' :: a, b)
            | false, none => none
          from rfl]
        rw [hnp2, hihs]
        rfl
      rw [hmid]
      simp [List.append_assoc]

/-- Case-insensitive prefix stripping used to model the anchored
header-name regexes. -/
def dropPrefixCaseless : List Char → List Char → Option (List Char)
  | [], l => some l
  | _ :: _, [] => none
  | p :: ps, c :: cs => if asciiLower c = p then dropPrefixCaseless ps cs else none

/-- The anchored case-insensitive test name-then-whitespace-then-colon that
the bridge uses to recognise a forwarded-client header line. -/
def headerMatches (name : List Char) (l : List Char) : Bool :=
  match dropPrefixCaseless name l with
  | none => false
  | some rest =>
    match rest.dropWhile (fun c => isJsWhitespace c) with
    | ':' :: _ => true
    | _ => false

def isXffLine (l : List Char) : Bool := headerMatches "x-forwarded-for".data l

def isXripLine (l : List Char) : Bool := headerMatches "x-real-ip".data l

/-- Embedding of injectForwardHeaders from the Proxy-Protocol-v2 bridge:
split the buffer at the first CRLFCRLF, drop every X-Forwarded-For and
X-Real-IP line from the header block, append fresh ones carrying the
parsed client IP, and reassemble with the body untouched. -/
def injectForwardHeaders (payload : List Char) (clientIp : String) : List Char :=
  match splitFirstSub crlfcrlf payload with
  | none => payload
  | some (headerPart, bodyPart) =>
    match splitOnList crlf headerPart with
    | [] => payload
    | reqLine :: existing =>
      let outHeaders :=
        (existing.filter (fun h => !(isXffLine h) && !(isXripLine h)))
          ++ [("x-forwarded-for: " ++ clientIp).data,
              ("x-real-ip: " ++ clientIp).data]
      reqLine ++ crlf ++ List.intercalate crlf outHeaders ++ crlfcrlf ++ bodyPart

end Bridge

namespace Ftp

/-!  src/api/stats.ts — the FTP server's command dispatch, restricted to
the authenticated write commands the authorization claim is about (plus
the line parsing in front of the switch).  Replies are the strings the
source writes to the control socket; filesystem calls are recorded as an
effect trace; the data connection of STOR is an oracle flag. -/

def asciiUpper (c : Char) : Char :=
  if 'a' ≤ c ∧ c ≤ 'z' then Char.ofNat (c.toNat - 32) else c

def upperStr (s : String) : String := String.mk (s.data.map asciiUpper)

structure FtpSession where
  rootReal : String
  cwd : String
  authenticated : Bool
  username : String
  renameFrom : Option String
deriving DecidableEq, Repr

inductive FtpEff where
  | mkdirRec (p : String)
  | writeFile (p : String)
  | mkdirDir (p : String)
  | rmRec (p : String)
  | unlinkFile (p : String)
  | renameFs (src dst : String)
deriving DecidableEq, Repr

structure FtpOutcome where
  reply : String
  effs : List FtpEff
  session : FtpSession
deriving DecidableEq, Repr

/-- JS s.replace(slash-run-global, single slash). -/
def collapseSlashesAux : Bool → List Char → List Char
  | _, [] => []
  | prevSlash, c :: rest =>
    if c = '/' then
      if prevSlash then collapseSlashesAux true rest
      else '/' :: collapseSlashesAux true rest
    else c :: collapseSlashesAux false rest

def collapseSlashes (s : String) : String := String.mk (collapseSlashesAux false s.data)

def stripLeadingSlashes (s : String) : String :=
  String.mk (s.data.dropWhile (fun c => c = '/'))

/-- Embedding of resolveFtpPath. -/
def resolveFtpPath (session : FtpSession) (path : String) : String :=
  if strStartsWith path "/" then dropTrailingSlashes (stripLeadingSlashes path)
  else if session.cwd = "" then dropTrailingSlashes path
  else dropTrailingSlashes (collapseSlashes (session.cwd ++ "/" ++ path))

/-- Embedding of safePathForWrite: the textual scrub of safePath and the
lowercased startsWith containment check, without the realpath resolution
(the target may not exist yet). -/
def safePathForWrite (rootReal relPath : String) : Option String :=
  let cleaned := removeDotDot (stripLeadingJunk (backslashToSlash relPath))
  let target := pathJoin rootReal cleaned
  let normRoot := lowerStr (backslashToSlash rootReal)
  let normTarget := lowerStr (backslashToSlash target)
  if strStartsWith normTarget normRoot then some target else none

/-- The authenticated switch of handleFtpCommand, restricted to the write
commands STOR, MKD/XMKD, RMD/XRMD, DELE, RNFR and RNTO; other commands are
outside this model (none).  safePath uses the realpath oracle rp; dataOk
tells whether the STOR data connection arrives. -/
def ftpDispatch (rp : String → Option String) (dataOk : Bool)
    (session : FtpSession) (cmd arg : String) : Option FtpOutcome :=
  if cmd = "STOR" then
    if arg = "" then some ⟨"501 Missing filename.\r\n", [], session⟩
    else if session.username = "anonymous" then
      some ⟨"550 Permission denied (read-only).\r\n", [], session⟩
    else
      let target := resolveFtpPath session arg
      match safePathForWrite session.rootReal target with
      | none => some ⟨"550 Forbidden.\r\n", [], session⟩
      | some filePath =>
        if dataOk then
          some ⟨"226 Transfer complete.\r\n",
            [FtpEff.mkdirRec (dirnameStr filePath), FtpEff.writeFile filePath], session⟩
        else
          some ⟨"425 No data connection.\r\n",
            [FtpEff.mkdirRec (dirnameStr filePath)], session⟩
  else if cmd = "MKD" ∨ cmd = "XMKD" then
    if arg = "" then some ⟨"501 Missing directory name.\r\n", [], session⟩
    else if session.username = "anonymous" then
      some ⟨"550 Permission denied.\r\n", [], session⟩
    else
      let target := resolveFtpPath session arg
      match safePathForWrite session.rootReal target with
      | none => some ⟨"550 Forbidden.\r\n", [], session⟩
      | some dirPath =>
        some ⟨"257 \"/" ++ target ++ "\" created.\r\n", [FtpEff.mkdirDir dirPath], session⟩
  else if cmd = "RMD" ∨ cmd = "XRMD" then
    if arg = "" then some ⟨"501 Missing directory name.\r\n", [], session⟩
    else if session.username = "anonymous" then
      some ⟨"550 Permission denied.\r\n", [], session⟩
    else
      let target := resolveFtpPath session arg
      match Files.safePath rp session.rootReal target with
      | none => some ⟨"550 Directory not found.\r\n", [], session⟩
      | some dirPath =>
        some ⟨"250 Directory removed.\r\n", [FtpEff.rmRec dirPath], session⟩
  else if cmd = "DELE" then
    if arg = "" then some ⟨"501 Missing filename.\r\n", [], session⟩
    else if session.username = "anonymous" then
      some ⟨"550 Permission denied.\r\n", [], session⟩
    else
      let target := resolveFtpPath session arg
      match Files.safePath rp session.rootReal target with
      | none => some ⟨"550 File not found.\r\n", [], session⟩
      | some filePath =>
        some ⟨"250 File deleted.\r\n", [FtpEff.unlinkFile filePath], session⟩
  else if cmd = "RNFR" then
    if arg = "" then some ⟨"501 Missing filename.\r\n", [], session⟩
    else if session.username = "anonymous" then
      some ⟨"550 Permission denied.\r\n", [], session⟩
    else
      let target := resolveFtpPath session arg
      match Files.safePath rp session.rootReal target with
      | none => some ⟨"550 File not found.\r\n", [], session⟩
      | some filePath =>
        some ⟨"350 Ready for RNTO.\r\n", [], { session with renameFrom := some filePath }⟩
  else if cmd = "RNTO" then
    if arg = "" ∨ session.renameFrom = none then
      some ⟨"503 RNFR required first.\r\n", [], session⟩
    else
      let target := resolveFtpPath session arg
      match safePathForWrite session.rootReal target with
      | none => some ⟨"550 Forbidden.\r\n", [], session⟩
      | some destPath =>
        match session.renameFrom with
        | none => some ⟨"503 RNFR required first.\r\n", [], session⟩
        | some src =>
          some ⟨"250 Rename successful.\r\n", [FtpEff.renameFs src destPath],
            { session with renameFrom := none }⟩
  else none

/-- Embedding of the front of handleFtpCommand: trim the line, split the
command at the first space and uppercase it, trim the argument, and hand
authenticated sessions to the write-command dispatch. -/
def handleFtpCommand (rp : String → Option String) (dataOk : Bool)
    (session : FtpSession) (line : String) : Option FtpOutcome :=
  let trimmed := jsTrim line
  if trimmed = "" then none
  else
    let cmdPart := trimmed.data.takeWhile (fun c => c ≠ ' ')
    let rest := trimmed.data.drop cmdPart.length
    let cmd := upperStr (String.mk cmdPart)
    let arg := match rest with
      | [] => ""
      | _ :: t => jsTrim (String.mk t)
    if session.authenticated then ftpDispatch rp dataOk session cmd arg else none

/-- A concrete anonymous read-only session below /srv. -/
def stC6 : FtpSession := ⟨"/srv", "", true, "anonymous", none⟩

end Ftp

namespace Files

/-!  src/api/files.ts (serve path) — MIME table, content disposition,
social-preview unfurl, HLS playlist rewriting and the Range engine.  The
request is modelled by its parsed components (method, URL parts, the
download query parameter and the Range and User-Agent headers); responses
carry status, headers and a body that is either raw bytes, text or empty. -/

def MIME : List (String × String) :=
  [(".html", "text/html; charset=utf-8"),
   (".css", "text/css; charset=utf-8"),
   (".js", "application/javascript; charset=utf-8"),
   (".json", "application/json; charset=utf-8"),
   (".txt", "text/plain; charset=utf-8"),
   (".md", "text/markdown; charset=utf-8"),
   (".csv", "text/csv; charset=utf-8"),
   (".xml", "application/xml; charset=utf-8"),
   (".svg", "image/svg+xml"),
   (".png", "image/png"),
   (".jpg", "image/jpeg"),
   (".jpeg", "image/jpeg"),
   (".gif", "image/gif"),
   (".webp", "image/webp"),
   (".ico", "image/x-icon"),
   (".mp4", "video/mp4"),
   (".webm", "video/webm"),
   (".mkv", "video/x-matroska"),
   (".avi", "video/x-msvideo"),
   (".mov", "video/quicktime"),
   (".m3u8", "application/vnd.apple.mpegurl"),
   (".m3u", "application/x-mpegurl"),
   (".mp3", "audio/mpeg"),
   (".wav", "audio/wav"),
   (".ogg", "audio/ogg"),
   (".flac", "audio/flac"),
   (".m4a", "audio/mp4"),
   (".pdf", "application/pdf"),
   (".zip", "application/zip"),
   (".gz", "application/gzip"),
   (".tar", "application/x-tar"),
   (".7z", "application/x-7z-compressed"),
   (".rar", "application/vnd.rar"),
   (".exe", "application/octet-stream"),
   (".woff", "font/woff"),
   (".woff2", "font/woff2"),
   (".ttf", "font/ttf"),
   (".otf", "font/otf"),
   (".ts", "video/mp2t")]

/-- Embedding of getMime. -/
def getMime (filePath : String) : String :=
  (mapGet MIME (lowerStr (extnameStr filePath))).getD "application/octet-stream"

structure ReqModel where
  method : String
  urlOrigin : String
  urlPathname : String
  urlSearch : String
  downloadParam : Option String
  rangeHeader : Option String
  userAgent : Option String

inductive RespBody where
  | bytes (bs : List Nat)
  | text (s : String)
  | empty
deriving DecidableEq, Repr

structure Resp where
  status : Nat
  headers : List (String × String)
  body : RespBody
deriving DecidableEq, Repr

structure FileEnv where
  rp : String → Option String
  statO : String → Option FStat
  textO : String → String
  bytesO : String → List Nat
  dlCount : String → Nat

/-- Embedding of shouldForceDownload: the download query parameter,
lowercased, is 1, true or yes. -/
def shouldForceDownload (req : ReqModel) : Bool :=
  let v := lowerStr (req.downloadParam.getD "")
  v = "1" ∨ v = "true" ∨ v = "yes"

def isUriUnreserved (c : Char) : Bool :=
  ('A' ≤ c ∧ c ≤ 'Z') ∨ ('a' ≤ c ∧ c ≤ 'z') ∨ ('0' ≤ c ∧ c ≤ '9') ∨
  c = '-' ∨ c = '_' ∨ c = '.' ∨ c = '!' ∨ c = '~' ∨ c = '*' ∨
  c = Char.ofNat 39 ∨ c = '(' ∨ c = ')'

def hexDigitUpper (n : Nat) : Char :=
  if n < 10 then Char.ofNat (48 + n) else Char.ofNat (55 + n)

def pctByte (b : Nat) : List Char := ['%', hexDigitUpper (b / 16), hexDigitUpper (b % 16)]

/-- UTF-8 bytes of a code point. -/
def utf8Bytes (c : Char) : List Nat :=
  let n := c.toNat
  if n < 128 then [n]
  else if n < 2048 then [192 + n / 64, 128 + n % 64]
  else if n < 65536 then [224 + n / 4096, 128 + (n / 64) % 64, 128 + n % 64]
  else [240 + n / 262144, 128 + (n / 4096) % 64, 128 + (n / 64) % 64, 128 + n % 64]

/-- JS encodeURIComponent: unreserved characters pass, everything else is
percent-encoded bytewise in UTF-8. -/
def encodeURIComponent (s : String) : String :=
  String.mk (s.data.foldr (fun c acc =>
    (if isUriUnreserved c then [c] else ((utf8Bytes c).map pctByte).flatten) ++ acc) [])

/-- One global single-character replace (the building block of the chained
JS replaces; each replacement string never contains a later target, so
chaining single-character passes matches the source). -/
def replaceCharStr (c : Char) (rep : String) (s : String) : String :=
  String.mk (s.data.foldr (fun ch acc => (if ch = c then rep.data else [ch]) ++ acc) [])

/-- Embedding of encodeDispositionFilename: encodeURIComponent, then the
JS escape of apostrophe and parentheses, then star to percent-2A. -/
def encodeDispositionFilename (name : String) : String :=
  replaceCharStr '*' "%2A"
    (replaceCharStr (Char.ofNat 41) "%29"
      (replaceCharStr (Char.ofNat 40) "%28"
        (replaceCharStr (Char.ofNat 39) "%27" (encodeURIComponent name))))

/-- Embedding of buildContentDisposition (the serve-path variant): always
an attachment with the RFC 5987 encoded basename. -/
def buildContentDisposition (filePath : String) : String :=
  "attachment; filename*=UTF-8" ++ String.mk [Char.ofNat 39, Char.ofNat 39] ++
    encodeDispositionFilename (basenameStr filePath)

/-- Embedding of escapeHtml: the five chained global replaces of the
source in order. -/
def escapeHtml (value : String) : String :=
  replaceCharStr (Char.ofNat 39) "&#39;"
    (replaceCharStr '"' "&quot;"
      (replaceCharStr '>' "&gt;"
        (replaceCharStr '<' "&lt;"
          (replaceCharStr '&' "&amp;" value))))

def socialBots : List String :=
  ["discordbot", "slackbot", "twitterbot", "facebookexternalhit",
   "linkedinbot", "whatsapp", "telegrambot", "line", "skypeuripreview"]

/-- Embedding of isSocialPreviewRequest: lowercased User-Agent contains
one of the bot substrings. -/
def isSocialPreviewRequest (req : ReqModel) : Bool :=
  let ua := lowerStr (req.userAgent.getD "")
  if ua = "" then false
  else socialBots.any (fun keyword => strContainsSub ua keyword)

/-- Embedding of buildDownloadPreviewHtml: the unfurl page with OpenGraph
and Twitter-card metadata and the per-file download count. -/
def buildDownloadPreviewHtml (dl : String → Nat) (req : ReqModel)
    (relPath filePath : String) : String :=
  let fileName := basenameStr filePath
  let normalizedRelPath := backslashToSlash relPath
  let downloadCount := dl normalizedRelPath
  let title := fileName ++ " | FileShare"
  let description := "ダウンロード共有ファイル: " ++ normalizedRelPath ++
    "（ダウンロード: " ++ natToStr downloadCount ++ "回）"
  let canonicalUrl := req.urlOrigin ++ req.urlPathname ++ req.urlSearch
  let escapedTitle := escapeHtml title
  let escapedDescription := escapeHtml description
  let escapedCanonicalUrl := escapeHtml canonicalUrl
  "<!DOCTYPE html>\n<html lang=\"ja\">\n<head>\n  <meta charset=\"UTF-8\" />\n  <meta name=\"viewport\" content=\"width=device-width, initial-scale=1.0\" />\n  <title>" ++
    escapedTitle ++
    "</title>\n  <meta name=\"description\" content=\"" ++
    escapedDescription ++
    "\" />\n  <meta property=\"og:type\" content=\"website\" />\n  <meta property=\"og:site_name\" content=\"FileShare\" />\n  <meta property=\"og:title\" content=\"" ++
    escapedTitle ++
    "\" />\n  <meta property=\"og:description\" content=\"" ++
    escapedDescription ++
    "\" />\n  <meta property=\"og:url\" content=\"" ++
    escapedCanonicalUrl ++
    "\" />\n  <meta name=\"twitter:card\" content=\"summary\" />\n  <meta name=\"twitter:title\" content=\"" ++
    escapedTitle ++
    "\" />\n  <meta name=\"twitter:description\" content=\"" ++
    escapedDescription ++
    "\" />\n  <link rel=\"canonical\" href=\"" ++
    escapedCanonicalUrl ++
    "\" />\n</head>\n<body>\n  <h1>" ++
    escapedTitle ++
    "</h1>\n  <p>" ++
    escapedDescription ++
    "</p>\n  <p><a href=\"" ++
    escapedCanonicalUrl ++
    "\">ダウンロード</a></p>\n</body>\n</html>"

def isAsciiLetter (c : Char) : Bool :=
  ('a' ≤ c ∧ c ≤ 'z') ∨ ('A' ≤ c ∧ c ≤ 'Z')

def isSchemeTailChar (c : Char) : Bool :=
  isAsciiLetter c ∨ ('0' ≤ c ∧ c ≤ '9') ∨ c = '+' ∨ c = '.' ∨ c = '-'

/-- The anchored scheme-or-protocol-relative test of isExternalUri. -/
def startsProtocolRelative (l : List Char) : Bool :=
  match l with
  | '/' :: '/' :: _ => true
  | c :: rest =>
    if isAsciiLetter c then
      match rest.dropWhile isSchemeTailChar with
      | ':' :: '/' :: '/' :: _ => true
      | _ => false
    else false
  | [] => false

/-- Embedding of isExternalUri. -/
def isExternalUri (uri : String) : Bool :=
  startsProtocolRelative uri.data ∨
  strStartsWith (lowerStr uri) "data:" ∨ strStartsWith (lowerStr uri) "blob:"

/-- Embedding of normalizeRelPath: backslashes to slashes and one leading
dot-slash stripped. -/
def normalizeRelPath (path : String) : String :=
  let q := backslashToSlash path
  if strStartsWith q "./" then String.mk (q.data.drop 2) else q

/-- Embedding of toApiFileUrlFromPlaylist. -/
def toApiFileUrlFromPlaylist (playlistRelPath rawUri : String) : String :=
  let uri := jsTrim rawUri
  if uri = "" ∨ isExternalUri uri then uri
  else
    let targetRel :=
      if strStartsWith uri "/" then String.mk (uri.data.dropWhile (fun c => c = '/'))
      else normalizeRelPath (pathJoin (dirnameStr playlistRelPath) uri)
    "/api/file?path=" ++ encodeURIComponent targetRel

/-- JS split on an optional carriage return followed by a newline. -/
def splitLinesJsList : List Char → List (List Char)
  | [] => [[]]
  | '\r' :: '\n' :: rest => [] :: splitLinesJsList rest
  | '\n' :: rest => [] :: splitLinesJsList rest
  | c :: rest =>
    match splitLinesJsList rest with
    | [] => [[c]]
    | t :: ts => (c :: t) :: ts

/-- First match of the anchored URI-attribute pattern at the head of the
list: URI, equals, quote, one or more non-quote characters, quote. -/
def matchUriAt (l : List Char) : Option (List Char × List Char) :=
  match l with
  | u :: r :: i :: '=' :: '"' :: rest =>
    if asciiLower u = 'u' ∧ asciiLower r = 'r' ∧ asciiLower i = 'i' then
      let uri := rest.takeWhile (fun c => c ≠ '"')
      if uri.isEmpty then none
      else
        match rest.drop uri.length with
        | '"' :: after => some (uri, after)
        | _ => none
    else none
  | _ => none

/-- First occurrence of the URI-attribute pattern in a line, with the text
before it, the captured URI and the text after the closing quote. -/
def findUriAttr : List Char → Option (List Char × List Char × List Char)
  | [] => none
  | c :: rest =>
    match matchUriAt (c :: rest) with
    | some (uri, after) => some ([], uri, after)
    | none =>
      match findUriAttr rest with
      | some (before, uri, after) => some (c :: before, uri, after)
      | none => none

/-- Embedding of rewriteHlsPlaylist: rewrite URI attributes on tag lines
and whole non-comment lines, join with newlines. -/
def rewriteHlsPlaylist (content playlistRelPath : String) : String :=
  let lines := (splitLinesJsList content.data).map String.mk
  joinSep "\n" (lines.map (fun line =>
    let trimmed := jsTrim line
    if trimmed = "" then line
    else if strStartsWith trimmed "#" then
      match findUriAttr line.data with
      | some (before, uri, after) =>
        String.mk before ++ "URI=\"" ++
          toApiFileUrlFromPlaylist playlistRelPath (String.mk uri) ++ "\"" ++
          String.mk after
      | none => line
    else toApiFileUrlFromPlaylist playlistRelPath trimmed))

/-- The anchored bytes-equals range pattern: case-insensitive bytes=,
then a digit run, a dash and a digit run, ending the string. -/
def matchBytesRange (l : List Char) : Option (List Char × List Char) :=
  match Bridge.dropPrefixCaseless "bytes=".data l with
  | none => none
  | some rest =>
    let rawStart := rest.takeWhile isDigitChar
    match rest.drop rawStart.length with
    | '-' :: rest2 =>
      let rawEnd := rest2.takeWhile isDigitChar
      if rest2.drop rawEnd.length = [] then some (rawStart, rawEnd) else none
    | _ => none

/-- Embedding of parseRange: first comma-field trimmed, matched against
bytes equals start dash end; suffix, open-ended and closed forms with the
end clamped to the file size.  Byte positions are exact naturals (the
float imprecision of parseInt beyond 2 to the 53rd is not modelled). -/
def parseRange (header : String) (totalSize : Nat) : Option (Nat × Nat) :=
  let single := jsTrim (((strSplitChar ',' header).headD header))
  match matchBytesRange single.data with
  | none => none
  | some (rawStart, rawEnd) =>
    if rawStart.isEmpty ∧ rawEnd.isEmpty then none
    else if rawStart.isEmpty then
      let suffixLen := digitsVal rawEnd
      if suffixLen = 0 then none
      else
        let e : Int := (totalSize : Int) - 1
        let s : Int := max 0 ((totalSize : Int) - suffixLen)
        if s > e then none else some (s.toNat, e.toNat)
    else
      let s := digitsVal rawStart
      if s ≥ totalSize then none
      else
        let e := if rawEnd.isEmpty then totalSize - 1 else digitsVal rawEnd
        if e < s then none
        else some (s, min e (totalSize - 1))

/-- Embedding of serveFile (the serve path of src/api/files.ts): guard
through safePath, reject directories, social-preview unfurl for forced
downloads without a Range, HLS playlist rewriting, HEAD, single-range 206
responses with end clamped, and the full-file response. -/
def serveFile (env : FileEnv) (rootReal relPath : String) (req : ReqModel) :
    Resp :=
  match safePath env.rp rootReal relPath with
  | none =>
    ⟨403, [("Content-Type", "application/json")],
      RespBody.text ("\x7b\"error\":\"Not found or access denied\"\x7d")⟩
  | some filePath =>
    match env.statO filePath with
    | none =>
      ⟨500, [("Content-Type", "application/json")],
        RespBody.text ("\x7b\"error\":\"Failed to read file\"\x7d")⟩
    | some st =>
      if st.isDir then
        ⟨400, [("Content-Type", "application/json")],
          RespBody.text ("\x7b\"error\":\"Is a directory\"\x7d")⟩
      else
        let fileSize := st.size
        let mime := getMime filePath
        let forceDownload := shouldForceDownload req
        let disposition := buildContentDisposition filePath
        let fileExt := lowerStr (extnameStr filePath)
        if forceDownload ∧ req.method = "GET" ∧ req.rangeHeader.getD "" = "" ∧
            isSocialPreviewRequest req then
          ⟨200, [("Content-Type", "text/html; charset=utf-8"),
                 ("Cache-Control", "no-store")],
            RespBody.text (buildDownloadPreviewHtml env.dlCount req relPath filePath)⟩
        else if fileExt = ".m3u8" ∨ fileExt = ".m3u" then
          let rewritten :=
            rewriteHlsPlaylist (env.textO filePath) (backslashToSlash relPath)
          ⟨200, [("Content-Type", mime), ("Cache-Control", "no-store"),
                 ("Content-Length",
                   natToStr ((rewritten.data.map (fun c => (utf8Bytes c).length)).sum)),
                 ("Accept-Ranges", "bytes")],
            RespBody.text rewritten⟩
        else if req.method = "HEAD" then
          ⟨200, [("Content-Type", mime), ("Content-Length", natToStr fileSize),
                 ("Accept-Ranges", "bytes")] ++
              (if forceDownload then [("Content-Disposition", disposition)] else []),
            RespBody.empty⟩
        else if req.rangeHeader.getD "" ≠ "" then
          match parseRange (req.rangeHeader.getD "") fileSize with
          | none => ⟨416, [], RespBody.text "Invalid Range"⟩
          | some (s, e) =>
            if s ≥ fileSize ∨ e ≥ fileSize ∨ s > e then
              ⟨416, [("Content-Range", "bytes */" ++ natToStr fileSize)],
                RespBody.text "Range Not Satisfiable"⟩
            else
              ⟨206, [("Content-Type", mime),
                     ("Content-Range", "bytes " ++ natToStr s ++ "-" ++ natToStr e ++
                       "/" ++ natToStr fileSize),
                     ("Content-Length", natToStr (e - s + 1)),
                     ("Accept-Ranges", "bytes")] ++
                  (if forceDownload then [("Content-Disposition", disposition)] else []),
                RespBody.bytes (((env.bytesO filePath).take (e + 1)).drop s)⟩
        else
          ⟨200, [("Content-Type", mime), ("Content-Length", natToStr fileSize),
                 ("Accept-Ranges", "bytes")] ++
              (if forceDownload then [("Content-Disposition", disposition)] else []),
            RespBody.bytes (env.bytesO filePath)⟩

/-!  Auxiliary facts for the Range engine: decimal printing followed by the
parseRange scan is the identity, and headers built from digits contain no
whitespace and no comma. -/

theorem char_ofNat_digit_toNat (d : Nat) (hd : d < 10) :
    (Char.ofNat (48 + d)).toNat = 48 + d := by
  interval_cases d <;> decide

theorem isDigitChar_ofNat (d : Nat) (hd : d < 10) :
    isDigitChar (Char.ofNat (48 + d)) = true := by
  interval_cases d <;> decide

theorem natDigits_lt_ten (n : Nat) : ∀ d ∈ natDigits n, d < 10 := by
  induction n using Nat.strong_induction_on with
  | _ n ih =>
    rw [natDigits_unfold]
    by_cases h : n < 10
    · rw [if_pos h]
      intro d hd
      rw [List.mem_singleton] at hd
      omega
    · rw [if_neg h]
      intro d hd
      rw [List.mem_append] at hd
      rcases hd with hd | hd
      · exact ih (n / 10) (Nat.div_lt_self (by omega) (by omega)) d hd
      · rw [List.mem_singleton] at hd
        omega

theorem natDigits_ne_nil (n : Nat) : natDigits n ≠ [] := by
  rw [natDigits_unfold]
  by_cases h : n < 10
  · rw [if_pos h]
    exact List.cons_ne_nil _ _
  · rw [if_neg h]
    simp

theorem digitsVal_go (n : Nat) :
    ∀ acc : Nat,
      ((natDigits n).map (fun d => Char.ofNat (48 + d))).foldl
        (fun a c => a * 10 + (c.toNat - 48)) acc =
      acc * 10 ^ (natDigits n).length + n := by
  induction n using Nat.strong_induction_on with
  | _ n ih =>
    intro acc
    by_cases h : n < 10
    · have heq : natDigits n = [n] := by rw [natDigits_unfold, if_pos h]
      rw [heq]
      simp [char_ofNat_digit_toNat n h]
    · have heq : natDigits n = natDigits (n / 10) ++ [n % 10] := by
        rw [natDigits_unfold, if_neg h]
      have hlt : n / 10 < n := Nat.div_lt_self (by omega) (by omega)
      rw [heq, List.map_append, List.foldl_append, ih (n / 10) hlt acc]
      have hm : (Char.ofNat (48 + n % 10)).toNat = 48 + n % 10 :=
        char_ofNat_digit_toNat (n % 10) (Nat.mod_lt n (by omega))
      simp only [List.map_cons, List.map_nil, List.foldl_cons, List.foldl_nil, hm,
        List.length_append, List.length_singleton, pow_succ, ← mul_assoc]
      generalize acc * 10 ^ (natDigits (n / 10)).length = A
      omega

theorem digitsVal_natToStr (n : Nat) : digitsVal (natToStr n).data = n := by
  show digitsVal ((natDigits n).map (fun d => Char.ofNat (48 + d))) = n
  unfold digitsVal
  rw [digitsVal_go n 0]
  simp

theorem natToStr_all_digits (n : Nat) :
    ∀ c ∈ (natToStr n).data, isDigitChar c = true := by
  intro c hc
  have hc2 : c ∈ (natDigits n).map (fun d => Char.ofNat (48 + d)) := hc
  rw [List.mem_map] at hc2
  obtain ⟨d, hd, rfl⟩ := hc2
  exact isDigitChar_ofNat d (natDigits_lt_ten n d hd)

theorem natToStr_ne_nil (n : Nat) : (natToStr n).data ≠ [] := by
  show (natDigits n).map (fun d => Char.ofNat (48 + d)) ≠ []
  cases hnd : natDigits n with
  | nil => exact absurd hnd (natDigits_ne_nil n)
  | cons a t => simp

theorem dropWhile_eq_self_of_forall {p : Char → Bool} :
    ∀ l : List Char, (∀ c ∈ l, p c = false) → l.dropWhile p = l
  | [], _ => rfl
  | c :: rest, h => by
    simp [List.dropWhile_cons, h c (List.mem_cons_self c rest),
      dropWhile_eq_self_of_forall rest (fun x hx => h x (List.mem_cons_of_mem c hx))]

theorem jsTrim_eq_self (s : String) (h : ∀ c ∈ s.data, isJsWhitespace c = false) :
    jsTrim s = s := by
  unfold jsTrim
  rw [dropWhile_eq_self_of_forall s.data h]
  rw [dropWhile_eq_self_of_forall s.data.reverse
    (fun c hc => h c (List.mem_reverse.mp hc))]
  rw [List.reverse_reverse]

theorem splitCharList_of_not_mem (sep : Char) :
    ∀ l : List Char, (∀ c ∈ l, c ≠ sep) → splitCharList sep l = [l]
  | [], _ => rfl
  | c :: rest, h => by
    have ht := splitCharList_of_not_mem sep rest
      (fun x hx => h x (List.mem_cons_of_mem c hx))
    simp only [splitCharList, ht]
    rw [if_neg (h c (List.mem_cons_self c rest))]

theorem takeWhile_eq_self_of_forall {p : Char → Bool} :
    ∀ l : List Char, (∀ c ∈ l, p c = true) → l.takeWhile p = l
  | [], _ => rfl
  | c :: rest, h => by
    simp [List.takeWhile_cons, h c (List.mem_cons_self c rest),
      takeWhile_eq_self_of_forall rest (fun x hx => h x (List.mem_cons_of_mem c hx))]

theorem takeWhile_append_stop {p : Char → Bool} (ds : List Char)
    (hds : ∀ c ∈ ds, p c = true) (c : Char) (hc : p c = false) (tail : List Char) :
    (ds ++ c :: tail).takeWhile p = ds := by
  induction ds with
  | nil => simp [List.takeWhile_cons, hc]
  | cons a rest ih =>
    simp [List.cons_append, List.takeWhile_cons, hds a (List.mem_cons_self a rest),
      ih (fun x hx => hds x (List.mem_cons_of_mem a hx))]

theorem digitChar_not_ws {c : Char} (h : isDigitChar c = true) :
    isJsWhitespace c = false := by
  cases hw : isJsWhitespace c
  · rfl
  · exfalso
    simp only [isJsWhitespace, decide_eq_true_eq] at hw
    rcases hw with h1 | h1 | h1 | h1 | h1 | h1 <;> subst h1 <;> exact absurd h (by decide)

theorem digitChar_ne_comma {c : Char} (h : isDigitChar c = true) : c ≠ ',' := by
  intro hc
  subst hc
  exact absurd h (by decide)

theorem bytesHeader_data (s e : Nat) :
    ("bytes=" ++ natToStr s ++ "-" ++ natToStr e).data =
      'b' :: 'y' :: 't' :: 'e' :: 's' :: '=' ::
        ((natToStr s).data ++ '-' :: (natToStr e).data) := by
  simp [String.data_append]

theorem bytesHeader_ne_empty (s e : Nat) :
    ("bytes=" ++ natToStr s ++ "-" ++ natToStr e) ≠ "" := by
  intro h
  have h2 := congrArg String.data h
  rw [bytesHeader_data] at h2
  exact List.noConfusion h2

theorem header_no_ws_comma (s e : Nat) :
    ∀ c ∈ ("bytes=" ++ natToStr s ++ "-" ++ natToStr e).data,
      isJsWhitespace c = false ∧ c ≠ ',' := by
  intro c hc
  rw [bytesHeader_data] at hc
  simp only [List.mem_cons, List.mem_append] at hc
  rcases hc with h1 | h1 | h1 | h1 | h1 | h1 | h1
  · subst h1; exact ⟨by decide, by decide⟩
  · subst h1; exact ⟨by decide, by decide⟩
  · subst h1; exact ⟨by decide, by decide⟩
  · subst h1; exact ⟨by decide, by decide⟩
  · subst h1; exact ⟨by decide, by decide⟩
  · subst h1; exact ⟨by decide, by decide⟩
  · rcases h1 with h2 | h2
    · have hd := natToStr_all_digits s c h2
      exact ⟨digitChar_not_ws hd, digitChar_ne_comma hd⟩
    · rcases h2 with h3 | h3
      · subst h3; exact ⟨by decide, by decide⟩
      · have hd := natToStr_all_digits e c h3
        exact ⟨digitChar_not_ws hd, digitChar_ne_comma hd⟩

theorem dropPrefixCaseless_cons {p c : Char} (ps cs : List Char)
    (h : asciiLower c = p) :
    Bridge.dropPrefixCaseless (p :: ps) (c :: cs) = Bridge.dropPrefixCaseless ps cs := by
  simp [Bridge.dropPrefixCaseless, h]

theorem dropPrefixCaseless_bytes (rest : List Char) :
    Bridge.dropPrefixCaseless "bytes=".data
      ('b' :: 'y' :: 't' :: 'e' :: 's' :: '=' :: rest) = some rest := by
  show Bridge.dropPrefixCaseless ['b', 'y', 't', 'e', 's', '='] _ = some rest
  rw [dropPrefixCaseless_cons _ _ (by decide), dropPrefixCaseless_cons _ _ (by decide),
    dropPrefixCaseless_cons _ _ (by decide), dropPrefixCaseless_cons _ _ (by decide),
    dropPrefixCaseless_cons _ _ (by decide), dropPrefixCaseless_cons _ _ (by decide)]
  rfl

theorem isEmpty_false_of_ne_nil {l : List Char} (h : l ≠ []) : l.isEmpty = false := by
  cases l with
  | nil => exact absurd rfl h
  | cons a t => rfl

theorem matchBytesRange_closed (s e : Nat) :
    matchBytesRange ("bytes=" ++ natToStr s ++ "-" ++ natToStr e).data =
      some ((natToStr s).data, (natToStr e).data) := by
  rw [bytesHeader_data]
  unfold matchBytesRange
  rw [dropPrefixCaseless_bytes]
  have htake : ((natToStr s).data ++ '-' :: (natToStr e).data).takeWhile isDigitChar =
      (natToStr s).data :=
    takeWhile_append_stop _ (natToStr_all_digits s) '-' (by decide) _
  have hdrop : ((natToStr s).data ++ '-' :: (natToStr e).data).drop
      (natToStr s).data.length = '-' :: (natToStr e).data :=
    List.drop_left _ _
  simp only [htake, hdrop]
  have htake2 : (natToStr e).data.takeWhile isDigitChar = (natToStr e).data :=
    takeWhile_eq_self_of_forall _ (natToStr_all_digits e)
  simp only [htake2, List.drop_length]
  simp

theorem parseRange_closed (s e N : Nat) (hse : s ≤ e) (hsN : s < N) :
    parseRange ("bytes=" ++ natToStr s ++ "-" ++ natToStr e) N =
      some (s, min e (N - 1)) := by
  have hchars := header_no_ws_comma s e
  have hsplit : strSplitChar ',' ("bytes=" ++ natToStr s ++ "-" ++ natToStr e) =
      ["bytes=" ++ natToStr s ++ "-" ++ natToStr e] := by
    unfold strSplitChar
    rw [splitCharList_of_not_mem ',' _ (fun c hc => (hchars c hc).2)]
    rfl
  have htrim : jsTrim ("bytes=" ++ natToStr s ++ "-" ++ natToStr e) =
      "bytes=" ++ natToStr s ++ "-" ++ natToStr e :=
    jsTrim_eq_self _ (fun c hc => (hchars c hc).1)
  have hes : (natToStr s).data.isEmpty = false :=
    isEmpty_false_of_ne_nil (natToStr_ne_nil s)
  have hee : (natToStr e).data.isEmpty = false :=
    isEmpty_false_of_ne_nil (natToStr_ne_nil e)
  unfold parseRange
  rw [hsplit]
  simp only [List.headD_cons]
  rw [htrim, matchBytesRange_closed s e]
  simp only [hes, hee, digitsVal_natToStr]
  rw [if_neg (by simp)]
  rw [if_neg (by omega : ¬ s ≥ N)]
  simp only [Bool.false_eq_true, if_false]
  rw [if_neg (by omega : ¬ e < s)]

/-!  Auxiliary facts for the social-preview claim: substring containment
respects concatenation, escapeHtml is a concatenation homomorphism and
leaves digit strings unchanged. -/

theorem listContainsSub_nil (l : List Char) : listContainsSub l [] = true := by
  cases l with
  | nil => rfl
  | cons c t => simp [listContainsSub, List.isPrefixOf]

theorem listContainsSub_append_right (a b pat : List Char)
    (h : listContainsSub b pat = true) : listContainsSub (a ++ b) pat = true := by
  induction a with
  | nil => exact h
  | cons c rest ih =>
    rw [List.cons_append]
    simp only [listContainsSub]
    rw [ih]
    simp

theorem listContainsSub_append_left (a b pat : List Char)
    (h : listContainsSub a pat = true) : listContainsSub (a ++ b) pat = true := by
  induction a with
  | nil =>
    have hp : pat = [] := by
      simpa [listContainsSub] using h
    subst hp
    exact listContainsSub_nil b
  | cons c rest ih =>
    rw [List.cons_append]
    simp only [listContainsSub] at h ⊢
    rw [Bool.or_eq_true] at h
    rcases h with h1 | h1
    · have hpre : pat <+: c :: rest := List.isPrefixOf_iff_prefix.mp h1
      have hpre2 : pat <+: (c :: rest) ++ b := hpre.trans (List.prefix_append _ _)
      have h2 : pat.isPrefixOf ((c :: rest) ++ b) = true :=
        List.isPrefixOf_iff_prefix.mpr hpre2
      rw [List.cons_append] at h2
      simp [h2]
    · simp [ih h1]

theorem listContainsSub_self_append (pat rest : List Char) :
    listContainsSub (pat ++ rest) pat = true := by
  cases pat with
  | nil => exact listContainsSub_nil rest
  | cons c t =>
    rw [List.cons_append]
    simp only [listContainsSub]
    have h : (c :: t).isPrefixOf (c :: (t ++ rest)) = true :=
      List.isPrefixOf_iff_prefix.mpr ⟨rest, by simp⟩
    simp [h]

theorem strContainsSub_append_right (a b pat : String)
    (h : strContainsSub b pat = true) : strContainsSub (a ++ b) pat = true := by
  unfold strContainsSub at h ⊢
  rw [String.data_append]
  exact listContainsSub_append_right a.data b.data pat.data h

theorem strContainsSub_append_left (a b pat : String)
    (h : strContainsSub a pat = true) : strContainsSub (a ++ b) pat = true := by
  unfold strContainsSub at h ⊢
  rw [String.data_append]
  exact listContainsSub_append_left a.data b.data pat.data h

theorem strContainsSub_self (s : String) : strContainsSub s s = true := by
  have h := listContainsSub_self_append s.data []
  simpa [strContainsSub] using h

theorem foldrRep_append (g : Char → List Char) :
    ∀ l tail : List Char,
      l.foldr (fun ch acc => g ch ++ acc) tail =
      l.foldr (fun ch acc => g ch ++ acc) [] ++ tail
  | [], tail => by simp
  | c :: rest, tail => by
    simp only [List.foldr_cons]
    rw [foldrRep_append g rest tail]
    simp [List.append_assoc]

theorem replaceCharStr_append (c : Char) (rep : String) (a b : String) :
    replaceCharStr c rep (a ++ b) =
      replaceCharStr c rep a ++ replaceCharStr c rep b := by
  unfold replaceCharStr
  rw [String.data_append, List.foldr_append, foldrRep_append]
  rfl

theorem escapeHtml_append (a b : String) :
    escapeHtml (a ++ b) = escapeHtml a ++ escapeHtml b := by
  unfold escapeHtml
  rw [replaceCharStr_append, replaceCharStr_append, replaceCharStr_append,
    replaceCharStr_append, replaceCharStr_append]

theorem replaceCharStr_of_not_mem (c : Char) (rep : String) (s : String)
    (h : ∀ ch ∈ s.data, ch ≠ c) : replaceCharStr c rep s = s := by
  unfold replaceCharStr
  have key : ∀ l : List Char, (∀ ch ∈ l, ch ≠ c) →
      l.foldr (fun ch acc => (if ch = c then rep.data else [ch]) ++ acc) [] = l := by
    intro l
    induction l with
    | nil => intro _; rfl
    | cons x rest ih =>
      intro hl
      simp only [List.foldr_cons]
      rw [ih (fun y hy => hl y (List.mem_cons_of_mem x hy)),
        if_neg (hl x (List.mem_cons_self x rest))]
      rfl
  rw [key s.data h]

theorem not_mem_of_all_digits {s : String}
    (h : ∀ ch ∈ s.data, isDigitChar ch = true) {t : Char}
    (ht : isDigitChar t = false) : ∀ ch ∈ s.data, ch ≠ t := by
  intro ch hc he
  have h2 := h ch hc
  rw [he, ht] at h2
  exact Bool.noConfusion h2

theorem escapeHtml_digits (s : String)
    (h : ∀ ch ∈ s.data, isDigitChar ch = true) : escapeHtml s = s := by
  unfold escapeHtml
  rw [replaceCharStr_of_not_mem '&' _ s (not_mem_of_all_digits h (by decide)),
    replaceCharStr_of_not_mem '<' _ s (not_mem_of_all_digits h (by decide)),
    replaceCharStr_of_not_mem '>' _ s (not_mem_of_all_digits h (by decide)),
    replaceCharStr_of_not_mem '"' _ s (not_mem_of_all_digits h (by decide)),
    replaceCharStr_of_not_mem (Char.ofNat 39) _ s (not_mem_of_all_digits h (by decide))]

/-!  Concrete oracles for the Range and social-preview claims. -/

/-- A ten-byte regular file a.bin below the share root /root. -/
def envC2 : FileEnv :=
  ⟨fun p => if p = "/root/a.bin" then some "/root/a.bin" else none,
   fun p => if p = "/root/a.bin" then some ⟨10, false, 0⟩ else none,
   fun _ => "",
   fun p => if p = "/root/a.bin" then [0, 1, 2, 3, 4, 5, 6, 7, 8, 9] else [],
   fun _ => 0⟩

def reqC2 : ReqModel :=
  ⟨"GET", "http://host", "/api/file", "", none, some "bytes=2-5", none⟩

/-- A ten-byte playlist file a.m3u8 below the share root /root. -/
def envC2m : FileEnv :=
  ⟨fun p => if p = "/root/a.m3u8" then some "/root/a.m3u8" else none,
   fun p => if p = "/root/a.m3u8" then some ⟨10, false, 0⟩ else none,
   fun _ => "#EXTM3U",
   fun p => if p = "/root/a.m3u8" then [0, 1, 2, 3, 4, 5, 6, 7, 8, 9] else [],
   fun _ => 0⟩

/-- A four-byte file b.bin with seven recorded downloads. -/
def envC9 : FileEnv :=
  ⟨fun p => if p = "/root/b.bin" then some "/root/b.bin" else none,
   fun p => if p = "/root/b.bin" then some ⟨4, false, 0⟩ else none,
   fun _ => "",
   fun p => if p = "/root/b.bin" then [9, 9, 9, 9] else [],
   fun _ => 7⟩

def reqC9 : ReqModel :=
  ⟨"GET", "https://host", "/api/file", "?path=b.bin&download=1", some "1", none,
   some "Mozilla/5.0 (compatible; Discordbot/2.0; +https://discordapp.com)"⟩

end Files

namespace Stream

/-!  src/api/stream.ts — the HLS playlist endpoint.  Filesystem and
process interaction goes through oracles (realpath, stat, exists, read,
readdir, the sha1 digest and the ffmpeg duration probe); every write the
handler performs is recorded in an effect trace.  Durations are exact
integer milliseconds, which renders toFixed(3) and the ceil arithmetic of
the source exactly for millisecond-aligned values. -/

def NO_CACHE_THRESHOLD_BYTES : Nat := 1024 * 1024 * 1024

def DYNAMIC_PLAYLIST_LOOKAHEAD : Int := 3

structure ResolvedSource where
  sourceAbsPath : String
  sourceRelPath : String
  cacheDir : String
  playlistAbsPath : String
  sourceSize : Nat
  noCache : Bool
deriving DecidableEq, Repr

structure SourceMeta where
  durationMs : Int
  totalSegments : Nat
  segMs : Int
deriving DecidableEq, Repr

inductive StreamEff where
  | mkdirRec (p : String)
  | fsWrite (p : String)
  | touch (p : String)
deriving DecidableEq, Repr

structure StreamEnv where
  hlsRoot : String
  rp : String → Option String
  statO : String → Option FStat
  hashO : String → String
  existsO : String → Bool
  readO : String → String
  readdirO : String → Option (List String)
  probeO : String → Option Int
  parseMetaO : String → Option (Int × Int × Int)

/-- Math.ceil of an integer-millisecond ratio with positive divisor. -/
def ceilDivInt (a b : Int) : Int := (a + b - 1) / b

/-- Number.toFixed(3) of a nonnegative millisecond count read in seconds. -/
def fmtMsFixed3 (ms : Int) : String :=
  let n := ms.toNat
  natToStr (n / 1000) ++ "." ++ padStartWith '0' 3 (natToStr (n % 1000))

def segFileName (i : Nat) : String :=
  "seg_" ++ padStartWith '0' 5 (natToStr i) ++ ".ts"

/-- Embedding of resolveSource; a stat failure is the thrown error the
outer handler catches. -/
def resolveSource (env : StreamEnv) (rootReal relPath : String) :
    Except Unit (Option ResolvedSource) :=
  match Files.safePath env.rp rootReal relPath with
  | none => .ok none
  | some sourceAbsPath =>
    match env.statO sourceAbsPath with
    | none => .error ()
    | some st =>
      if st.isDir then .ok none
      else
        let ext := lowerStr (extnameStr sourceAbsPath)
        if ext = ".mp4" ∨ ext = ".m4v" ∨ ext = ".mov" then
          let sourceKey := env.hashO (sourceAbsPath ++ ":" ++ natToStr st.size ++
            ":" ++ intToStr st.mtimeMs)
          let rootKey := env.hashO rootReal
          let cacheDir := env.hlsRoot ++ "/" ++ rootKey ++ "/" ++ sourceKey
          .ok (some ⟨sourceAbsPath, backslashToSlash relPath, cacheDir,
            cacheDir ++ "/index.m3u8", st.size,
            decide (st.size > NO_CACHE_THRESHOLD_BYTES)⟩)
        else .ok none

/-- Embedding of ensureHlsGenerated as its effect trace: touch the cache
directory when a playlist already exists, otherwise create the directory
(no media is generated here). -/
def ensureHlsGenerated (env : StreamEnv) (source : ResolvedSource) : List StreamEff :=
  if env.existsO source.playlistAbsPath then [StreamEff.touch source.cacheDir]
  else [StreamEff.mkdirRec source.cacheDir]

/-- Embedding of getSourceMeta: in no-cache mode consult the in-memory map
or the probe; otherwise consult meta.json on disk, falling back to the
probe and persisting the freshly probed metadata to meta.json. -/
def getSourceMeta (env : StreamEnv) (mem : List (String × SourceMeta))
    (source : ResolvedSource) (segMs : Int) :
    Option SourceMeta × List StreamEff :=
  if source.noCache then
    let probed : Option SourceMeta × List StreamEff :=
      match env.probeO source.sourceAbsPath with
      | none => (none, [])
      | some d => (some ⟨d, (max 1 (ceilDivInt d segMs)).toNat, segMs⟩, [])
    match mapGet mem source.cacheDir with
    | some m =>
      if m.segMs = segMs ∧ m.totalSegments > 0 ∧ m.durationMs > 0 then (some m, [])
      else probed
    | none => probed
  else
    let metaPath := source.cacheDir ++ "/meta.json"
    let probedW : Option SourceMeta × List StreamEff :=
      match env.probeO source.sourceAbsPath with
      | none => (none, [])
      | some d =>
        (some ⟨d, (max 1 (ceilDivInt d segMs)).toNat, segMs⟩,
         [StreamEff.fsWrite metaPath])
    match (if env.existsO metaPath then env.parseMetaO (env.readO metaPath) else none) with
    | some (d, t, s) =>
      if d > 0 ∧ t > 0 ∧ s = segMs then (some ⟨d, t.toNat, segMs⟩, [])
      else probedW
    | none => probedW

/-- Embedding of rewritePlaylist: non-comment nonempty lines become
/api/stream/file URLs carrying the source path and the segment name. -/
def rewritePlaylist (playlistText sourceRelPath : String) : String :=
  let lines := (Files.splitLinesJsList playlistText.data).map String.mk
  joinSep "\n" (lines.map (fun line =>
    let trimmed := jsTrim line
    if trimmed = "" ∨ strStartsWith trimmed "#" then line
    else "/api/stream/file?path=" ++ Files.encodeURIComponent sourceRelPath ++
      "&file=" ++ Files.encodeURIComponent trimmed))

/-- The synthesized VOD playlist of the metadata branch, ENDLIST included. -/
def vodPlaylistRaw (meta : SourceMeta) (segMs : Int) : String :=
  let header := ["#EXTM3U", "#EXT-X-VERSION:3", "#EXT-X-PLAYLIST-TYPE:VOD",
    "#EXT-X-TARGETDURATION:" ++ intToStr (ceilDivInt segMs 1000),
    "#EXT-X-MEDIA-SEQUENCE:0"]
  let segLines := (List.range meta.totalSegments).flatMap (fun i =>
    let remaining : Int := meta.durationMs - (i : Int) * segMs
    let duration : Int :=
      if i = meta.totalSegments - 1 then max 1 (min segMs remaining) else segMs
    ["#EXTINF:" ++ fmtMsFixed3 duration ++ ",", segFileName i])
  joinSep "\n" (header ++ segLines ++ ["#EXT-X-ENDLIST"]) ++ "\n"

/-- The anchored seg_ddddd.ts test with its captured index. -/
def segMatch (name : String) : Option Nat :=
  match name.data with
  | 's' :: 'e' :: 'g' :: '_' :: d1 :: d2 :: d3 :: d4 :: d5 :: '.' :: 't' :: 's' :: [] =>
    if [d1, d2, d3, d4, d5].all isDigitChar then some (digitsVal [d1, d2, d3, d4, d5])
    else none
  | _ => none

def insertSorted (x : Int) : List Int → List Int
  | [] => [x]
  | y :: rest => if x ≤ y then x :: y :: rest else y :: insertSorted x rest

def sortInts (l : List Int) : List Int := l.foldr insertSorted []

/-- The progressive playlist of the fallback branch (no ENDLIST). -/
def progressivePlaylistRaw (env : StreamEnv) (source : ResolvedSource)
    (segMs : Int) : String :=
  let files := (env.readdirO source.cacheDir).getD []
  let existingIndexes :=
    sortInts ((files.filterMap segMatch).map (fun k => (k : Int)))
  let maxExisting := existingIndexes.getLast?.getD (-1)
  let uptoIndex := max 0 (maxExisting + DYNAMIC_PLAYLIST_LOOKAHEAD)
  let header := ["#EXTM3U", "#EXT-X-VERSION:3",
    "#EXT-X-TARGETDURATION:" ++ intToStr (ceilDivInt segMs 1000),
    "#EXT-X-MEDIA-SEQUENCE:0"]
  let segLines := (List.range (uptoIndex.toNat + 1)).flatMap (fun i =>
    ["#EXTINF:" ++ fmtMsFixed3 segMs ++ ",", segFileName i])
  joinSep "\n" (header ++ segLines) ++ "\n"

def hlsHeaders : List (String × String) :=
  [("Content-Type", "application/vnd.apple.mpegurl"), ("Cache-Control", "no-store")]

/-- Embedding of handleHlsPlaylist; the response reuses the HTTP response
record of the file API, and the effect trace lists every filesystem write
the handler performs (the JSON detail field of the 500 reply is elided). -/
def handleHlsPlaylist (env : StreamEnv) (mem : List (String × SourceMeta))
    (segMs : Int) (rootReal relPath : String) :
    Files.Resp × List StreamEff :=
  match resolveSource env rootReal relPath with
  | .error _ =>
    (⟨500, [("Content-Type", "application/json")],
      Files.RespBody.text "\x7b\"error\":\"HLSプレイリスト生成に失敗しました\"\x7d"⟩, [])
  | .ok none =>
    (⟨400, [("Content-Type", "application/json")],
      Files.RespBody.text
        "\x7b\"error\":\"HLS変換対象の動画が見つかりません（mp4/m4v/movのみ対応）\"\x7d"⟩, [])
  | .ok (some source) =>
    let ensEffs := ensureHlsGenerated env source
    if ¬ source.noCache ∧ env.existsO source.playlistAbsPath = true ∧
        strContainsSub (env.readO source.playlistAbsPath) "#EXT-X-ENDLIST" = true then
      (⟨200, hlsHeaders,
        Files.RespBody.text
          (rewritePlaylist (env.readO source.playlistAbsPath) source.sourceRelPath)⟩,
       ensEffs ++ [StreamEff.touch source.cacheDir])
    else
      match getSourceMeta env mem source segMs with
      | (some meta, metaEffs) =>
        (⟨200, hlsHeaders,
          Files.RespBody.text
            (rewritePlaylist (vodPlaylistRaw meta segMs) source.sourceRelPath)⟩,
         ensEffs ++ metaEffs ++ [StreamEff.touch source.cacheDir])
      | (none, metaEffs) =>
        (⟨200, hlsHeaders,
          Files.RespBody.text
            (rewritePlaylist (progressivePlaylistRaw env source segMs)
              source.sourceRelPath)⟩,
         ensEffs ++ metaEffs ++ [StreamEff.touch source.cacheDir])

/-- Whether an effect writes or creates the given path. -/
def effTargets (p : String) : StreamEff → Bool
  | StreamEff.mkdirRec q => q = p
  | StreamEff.fsWrite q => q = p
  | StreamEff.touch _ => false

/-- A concrete environment for the persistence claim: the eligible cached
source v.mp4 (100 MiB, far below the 1 GiB no-cache threshold) under the
share root /share, an empty HLS cache and a successful 10-second probe. -/
def envC8 : StreamEnv :=
  ⟨"/hls",
   fun p => if p = "/share/v.mp4" then some "/share/v.mp4" else none,
   fun p => if p = "/share/v.mp4" then some ⟨104857600, false, 5⟩ else none,
   fun s => if s = "/share" then "RK" else "SK",
   fun _ => false,
   fun _ => "",
   fun _ => none,
   fun p => if p = "/share/v.mp4" then some 10000 else none,
   fun _ => none⟩

theorem string_ne_self_append_index (s : String) : s ≠ s ++ "/index.m3u8" := by
  intro h
  have h3 := congrArg String.data h
  rw [String.data_append] at h3
  have h4 := congrArg List.length h3
  rw [List.length_append] at h4
  have h5 : ("/index.m3u8").data.length = 11 := by decide
  omega

theorem meta_ne_index (s : String) : s ++ "/meta.json" ≠ s ++ "/index.m3u8" := by
  intro h
  have h3 := congrArg String.data h
  rw [String.data_append, String.data_append] at h3
  have h4 := List.append_cancel_left h3
  exact absurd h4 (by decide)

theorem joinSep_contains (sep : String) :
    ∀ l : List String, ∀ x ∈ l, strContainsSub (joinSep sep l) x = true
  | [], x, hx => absurd hx (List.not_mem_nil x)
  | [x0], x, hx => by
    rw [List.mem_singleton] at hx
    subst hx
    exact Files.strContainsSub_self x
  | x0 :: x1 :: rest, x, hx => by
    rcases List.mem_cons.mp hx with h1 | h1
    · subst h1
      show strContainsSub (x ++ sep ++ joinSep sep (x1 :: rest)) x = true
      apply Files.strContainsSub_append_left
      apply Files.strContainsSub_append_left
      exact Files.strContainsSub_self x
    · show strContainsSub (x0 ++ sep ++ joinSep sep (x1 :: rest)) x = true
      apply Files.strContainsSub_append_right
      exact joinSep_contains sep (x1 :: rest) x h1

end Stream

end FileShare

/-- C3: for every spliced request head (request line and header lines that
are nonempty and CR-free, followed by CRLFCRLF and an arbitrary body) and
every parsed client IP, injectForwardHeaders keeps the request line, drops
exactly the inbound X-Forwarded-For and X-Real-IP header lines, appends
those two headers set to the parsed client IP, and leaves all other
headers and the body unchanged. -/
theorem C3_injectForwardHeaders_overwrites_client_headers
    (reqLine : List Char) (hdrs : List (List Char)) (body : List Char)
    (ip : String)
    (hreq : reqLine ≠ [] ∧ '\r' ∉ reqLine)
    (hh : ∀ l ∈ hdrs, l ≠ [] ∧ '\r' ∉ l) :
    FileShare.Bridge.injectForwardHeaders
        (List.intercalate FileShare.Bridge.crlf (reqLine :: hdrs) ++
          FileShare.Bridge.crlfcrlf ++ body) ip =
      reqLine ++ FileShare.Bridge.crlf ++
        List.intercalate FileShare.Bridge.crlf
          ((hdrs.filter (fun h =>
              !(FileShare.Bridge.isXffLine h) && !(FileShare.Bridge.isXripLine h)))
            ++ [("x-forwarded-for: " ++ ip).data, ("x-real-ip: " ++ ip).data]) ++
        FileShare.Bridge.crlfcrlf ++ body := by
  have hall : ∀ l ∈ reqLine :: hdrs, l ≠ [] ∧ '\r' ∉ l := by
    intro l hl
    rcases List.mem_cons.mp hl with h | h
    · exact h ▸ hreq
    · exact hh l h
  unfold FileShare.Bridge.injectForwardHeaders
  simp only [FileShare.Bridge.splitFirstSub_header_end (reqLine :: hdrs) body hall (by simp),
    FileShare.Bridge.splitOnList_intercalate (reqLine :: hdrs) hall (by simp)]

/-- Witness for C3: a concrete spliced request whose inbound
X-Forwarded-For header is discarded and replaced by the parsed client IP. -/
theorem C3_witness :
    FileShare.Bridge.injectForwardHeaders
        (List.intercalate FileShare.Bridge.crlf
          ["GET / HTTP/1.1".data, "Host: box".data, "X-Forwarded-For: 6.6.6.6".data] ++
          FileShare.Bridge.crlfcrlf ++ "BODY".data) "9.9.9.9" =
      "GET / HTTP/1.1".data ++ FileShare.Bridge.crlf ++
        List.intercalate FileShare.Bridge.crlf
          ((["Host: box".data, "X-Forwarded-For: 6.6.6.6".data].filter (fun h =>
              !(FileShare.Bridge.isXffLine h) && !(FileShare.Bridge.isXripLine h)))
            ++ [("x-forwarded-for: " ++ "9.9.9.9").data,
                ("x-real-ip: " ++ "9.9.9.9").data]) ++
        FileShare.Bridge.crlfcrlf ++ "BODY".data :=
  C3_injectForwardHeaders_overwrites_client_headers
    "GET / HTTP/1.1".data ["Host: box".data, "X-Forwarded-For: 6.6.6.6".data]
    "BODY".data "9.9.9.9" (by decide) (by decide)

/-- C10: whenever the request body path resolves (via safePath) to a path
whose normalised form equals the share root, handleDelete answers 403 and
performs no filesystem removal; the block-list branch and the explicit
root guard both return 403 before any removal. -/
theorem C10_handleDelete_never_removes_root
    (env : FileShare.FileOps.DeleteEnv) (rootReal relPath : String) (p : String)
    (hne : relPath ≠ "")
    (hres : FileShare.Files.safePath env.rp rootReal relPath = some p)
    (hroot : FileShare.lowerStr (FileShare.backslashToSlash p) =
      FileShare.lowerStr (FileShare.backslashToSlash rootReal)) :
    FileShare.FileOps.handleDelete env rootReal (some relPath) = (403, []) := by
  unfold FileShare.FileOps.handleDelete
  simp only [Option.getD, if_neg hne, hres]
  by_cases hb : FileShare.Auth.isPathBlocked env.blockedPaths p
  · simp [hb]
  · simp [hb, hroot]

/-- Witness for C10: the body path "." resolves to the root /share itself
and the delete request is refused with 403 and an empty effect list. -/
theorem C10_witness :
    FileShare.FileOps.handleDelete
      ⟨fun s => if s = "/share" then some "/share" else none, [],
        fun _ => some ⟨0, true, 0⟩⟩ "/share" (some ".") = (403, []) :=
  C10_handleDelete_never_removes_root _ "/share" "." "/share"
    (by decide) (by decide) (by decide)

/-- C1: safePath accepts the path /share/link whose canonical resolved
form is /shareevil, which is outside the share root /share (the root is a
plain string prefix but not a prefix at a path boundary).  This evaluates
the embedded code at the failing input of the claim. -/
theorem C1_safePath_escapes_root :
    FileShare.Files.safePath FileShare.Files.rpC1 "/share" "link" =
      some "/shareevil" ∧
    ¬ FileShare.Files.specBoundaryContained "/share" "/shareevil" := by
  constructor
  · rfl
  · decide

/-- C4 (amended): a session is accepted iff the clock has not passed its
expiry instant — now at most T plus 24 h, not strictly before it — and the
owning user still exists with approved status.  The conjuncts state: login
stamps expiresAt as issue time plus 24 h; verifyToken accepts exactly
under the amended condition; after denyUser or deleteUser of the owner
every session token of that user verifies to none; and an expired session
is deleted from the store on lookup. -/
theorem C4_token_verification_amended :
    (∀ (hashO : String → String → String) (freshToken : String) (now : Int)
        (st : FileShare.Auth.AuthState) (u p ip : String),
      (FileShare.Auth.login hashO freshToken now st u p ip).1.ok = true →
      ∃ sess, FileShare.mapGet
          (FileShare.Auth.login hashO freshToken now st u p ip).2.sessions
          freshToken = some sess ∧
        sess.expiresAt = now + FileShare.Auth.SESSION_TTL) ∧
    (∀ (now : Int) (st : FileShare.Auth.AuthState) (tok : String)
        (sess : FileShare.Auth.Session),
      tok ≠ "" →
      FileShare.mapGet st.sessions (FileShare.Auth.stripBearer tok) = some sess →
      ((FileShare.Auth.verifyToken now st (some tok)).1 ≠ none ↔
        now ≤ sess.expiresAt ∧ ∃ user,
          FileShare.mapGet st.usersById sess.userId = some user ∧
          user.status = FileShare.Auth.UserStatus.approved)) ∧
    (∀ (st : FileShare.Auth.AuthState) (uname : String)
        (user : FileShare.Auth.User),
      FileShare.Auth.getUserByName st uname = some user →
      (st.sessions.map Prod.fst).Nodup →
      ∀ (now : Int) (tok : String) (sess : FileShare.Auth.Session),
        tok ≠ "" →
        FileShare.mapGet st.sessions (FileShare.Auth.stripBearer tok) = some sess →
        sess.userId = user.id →
        (FileShare.Auth.verifyToken now
          (FileShare.Auth.denyUser st uname).2 (some tok)).1 = none) ∧
    (∀ (st : FileShare.Auth.AuthState) (uname : String)
        (user : FileShare.Auth.User),
      FileShare.Auth.getUserByName st uname = some user →
      (st.sessions.map Prod.fst).Nodup →
      ∀ (now : Int) (tok : String) (sess : FileShare.Auth.Session),
        tok ≠ "" →
        FileShare.mapGet st.sessions (FileShare.Auth.stripBearer tok) = some sess →
        sess.userId = user.id →
        (FileShare.Auth.verifyToken now
          (FileShare.Auth.deleteUser st uname).2 (some tok)).1 = none) ∧
    (∀ (now : Int) (st : FileShare.Auth.AuthState) (tok : String)
        (sess : FileShare.Auth.Session),
      tok ≠ "" →
      FileShare.mapGet st.sessions (FileShare.Auth.stripBearer tok) = some sess →
      now > sess.expiresAt →
      FileShare.Auth.verifyToken now st (some tok) =
        (none, { st with sessions :=
          FileShare.mapDelete st.sessions (FileShare.Auth.stripBearer tok) })) := by
  refine ⟨?_, ?_, ?_, ?_, ?_⟩
  · intro hashO freshToken now st u p ip hok
    cases hu : FileShare.Auth.getUserByName st u with
    | none => simp [FileShare.Auth.login, hu] at hok
    | some user =>
      by_cases h1 : hashO user.salt p = user.passwordHash
      case neg => simp [FileShare.Auth.login, hu, h1] at hok
      case pos =>
        by_cases h2 : user.status = FileShare.Auth.UserStatus.pending
        · simp [FileShare.Auth.login, hu, h1, h2] at hok
        · by_cases h3 : user.status = FileShare.Auth.UserStatus.denied
          · simp [FileShare.Auth.login, hu, h1, h2, h3] at hok
          · refine ⟨⟨user.id, user.username, freshToken, ip,
              now + FileShare.Auth.SESSION_TTL⟩, ?_, rfl⟩
            simp [FileShare.Auth.login, hu, h1, h2, h3,
              FileShare.mapGet_mapSet_self]
  · intro now st tok sess hne hget
    simp only [FileShare.Auth.verifyToken, if_neg hne, hget]
    by_cases hexp : now > sess.expiresAt
    · simp only [if_pos hexp]
      constructor
      · intro hcontra; exact absurd rfl hcontra
      · rintro ⟨hle, -⟩; omega
    · simp only [if_neg hexp]
      cases huser : FileShare.mapGet st.usersById sess.userId with
      | none =>
        simp only [huser]
        constructor
        · intro hcontra; exact absurd rfl hcontra
        · rintro ⟨-, user, huser2, -⟩
          exact Option.noConfusion huser2
      | some user =>
        simp only [huser]
        by_cases hst : user.status = FileShare.Auth.UserStatus.approved
        · simp only [if_pos hst]
          constructor
          · intro _; exact ⟨by omega, user, rfl, hst⟩
          · intro _; simp
        · simp only [if_neg hst]
          constructor
          · intro hcontra; exact absurd rfl hcontra
          · rintro ⟨-, user2, huser2, hap2⟩
            cases Option.some.inj huser2
            exact absurd hap2 hst
  · intro st uname user hu hnodup now tok sess hne hget huid
    have hnone : FileShare.mapGet
        (st.sessions.filter (fun p => p.2.userId ≠ user.id))
        (FileShare.Auth.stripBearer tok) = none := by
      have h0 := FileShare.Auth.mapGet_filter_userId_ne hnodup hget
      rw [huid] at h0
      exact h0
    simp only [FileShare.Auth.denyUser, hu]
    simp only [FileShare.Auth.verifyToken, if_neg hne, hnone]
  · intro st uname user hu hnodup now tok sess hne hget huid
    have hnone : FileShare.mapGet
        (st.sessions.filter (fun p => p.2.userId ≠ user.id))
        (FileShare.Auth.stripBearer tok) = none := by
      have h0 := FileShare.Auth.mapGet_filter_userId_ne hnodup hget
      rw [huid] at h0
      exact h0
    simp only [FileShare.Auth.deleteUser, hu]
    simp only [FileShare.Auth.verifyToken, if_neg hne, hnone]
  · intro now st tok sess hne hget hexp
    simp only [FileShare.Auth.verifyToken, if_neg hne, hget, if_pos hexp]

/-- Witness for C4: in the concrete state stC4 the session token T of the
approved user alice, checked at a time before its expiry instant, is
accepted exactly as the amended condition states. -/
theorem C4_witness :
    (FileShare.Auth.verifyToken 100 FileShare.Auth.stC4 (some "T")).1 ≠ none ↔
      (100 : Int) ≤ 86400000 ∧ ∃ user,
        FileShare.mapGet FileShare.Auth.stC4.usersById "u1" = some user ∧
        user.status = FileShare.Auth.UserStatus.approved :=
  C4_token_verification_amended.2.1 100 FileShare.Auth.stC4 "T"
    ⟨"u1", "alice", "T", "1.1.1.1", 86400000⟩ (by decide) (by decide)

/-- C4 counterexample: at the exact instant now equal to T plus 24 h the
code still accepts the token (the check is now greater than expiresAt), so
acceptance is not equivalent to now strictly less than T plus 24 h as the
claim states. -/
theorem C4_counterexample :
    (FileShare.Auth.verifyToken 86400000 FileShare.Auth.stC4 (some "T")).1 =
      some "alice" ∧
    ¬ ((86400000 : Int) < 0 + FileShare.Auth.SESSION_TTL) := by
  constructor
  · rfl
  · decide

/-- C5 (amended): per call the limiter behaves exactly as the claim's
algorithm states — disabled rules always allow; an absent or stale bucket
resets to count 1 at now and allows; a full bucket denies with
retryAfterSec the ceiling of the remaining window in seconds, which is at
most the ceiling of windowMs over 1000 when time has not run backwards;
otherwise the count increments and the request is allowed.  The window
bound holds per bucket window (not for arbitrarily placed windows): a run
of requests all inside one bucket window allows at most maxRequests of
them.  Clamped values max 1 maxRequests and max 1000 windowMs are the
sanitised rule the code computes in getRule. -/
theorem C5_rate_limit_amended :
    (∀ (raw : FileShare.RateLimit.RateLimitRule) (target ip : String)
        (now : Int) (b : List (String × FileShare.RateLimit.RateLimitBucket)),
      raw.enabled = false →
      FileShare.RateLimit.checkIpRateLimit raw target ip now b =
        ({ allowed := true }, b)) ∧
    (∀ (raw : FileShare.RateLimit.RateLimitRule) (target ip : String)
        (now : Int) (b : List (String × FileShare.RateLimit.RateLimitBucket)),
      raw.enabled = true →
      FileShare.mapGet b (FileShare.RateLimit.rlKey target ip) = none →
      FileShare.RateLimit.checkIpRateLimit raw target ip now b =
        ({ allowed := true, limit := some (max 1 raw.maxRequests),
           remaining := some (max 1 raw.maxRequests - 1) },
         FileShare.mapSet b (FileShare.RateLimit.rlKey target ip) ⟨1, now⟩)) ∧
    (∀ (raw : FileShare.RateLimit.RateLimitRule) (target ip : String)
        (now : Int) (b : List (String × FileShare.RateLimit.RateLimitBucket))
        (bucket : FileShare.RateLimit.RateLimitBucket),
      raw.enabled = true →
      FileShare.mapGet b (FileShare.RateLimit.rlKey target ip) = some bucket →
      now - bucket.windowStart ≥ ((max 1000 raw.windowMs : Nat) : Int) →
      FileShare.RateLimit.checkIpRateLimit raw target ip now b =
        ({ allowed := true, limit := some (max 1 raw.maxRequests),
           remaining := some (max 1 raw.maxRequests - 1) },
         FileShare.mapSet b (FileShare.RateLimit.rlKey target ip) ⟨1, now⟩)) ∧
    (∀ (raw : FileShare.RateLimit.RateLimitRule) (target ip : String)
        (now : Int) (b : List (String × FileShare.RateLimit.RateLimitBucket))
        (bucket : FileShare.RateLimit.RateLimitBucket),
      raw.enabled = true →
      FileShare.mapGet b (FileShare.RateLimit.rlKey target ip) = some bucket →
      now - bucket.windowStart < ((max 1000 raw.windowMs : Nat) : Int) →
      bucket.count ≥ max 1 raw.maxRequests →
      FileShare.RateLimit.checkIpRateLimit raw target ip now b =
        ({ allowed := false,
           retryAfterSec := some
             (((max 0 (((max 1000 raw.windowMs : Nat) : Int) -
                 (now - bucket.windowStart))).toNat + 999) / 1000),
           limit := some (max 1 raw.maxRequests), remaining := some 0 }, b) ∧
        (bucket.windowStart ≤ now →
          ((max 0 (((max 1000 raw.windowMs : Nat) : Int) -
              (now - bucket.windowStart))).toNat + 999) / 1000 ≤
            (max 1000 raw.windowMs + 999) / 1000)) ∧
    (∀ (raw : FileShare.RateLimit.RateLimitRule) (target ip : String)
        (now : Int) (b : List (String × FileShare.RateLimit.RateLimitBucket))
        (bucket : FileShare.RateLimit.RateLimitBucket),
      raw.enabled = true →
      FileShare.mapGet b (FileShare.RateLimit.rlKey target ip) = some bucket →
      now - bucket.windowStart < ((max 1000 raw.windowMs : Nat) : Int) →
      bucket.count < max 1 raw.maxRequests →
      FileShare.RateLimit.checkIpRateLimit raw target ip now b =
        ({ allowed := true, limit := some (max 1 raw.maxRequests),
           remaining := some (max 1 raw.maxRequests - (bucket.count + 1)) },
         FileShare.mapSet b (FileShare.RateLimit.rlKey target ip)
           ⟨bucket.count + 1, bucket.windowStart⟩)) ∧
    (∀ (raw : FileShare.RateLimit.RateLimitRule) (target ip : String)
        (t : Int) (rest : List Int),
      raw.enabled = true →
      (∀ u ∈ rest, t ≤ u ∧ u - t < ((max 1000 raw.windowMs : Nat) : Int)) →
      FileShare.RateLimit.countAllowed
          (FileShare.RateLimit.runRateChecks raw target ip (t :: rest) []).1 ≤
        max 1 raw.maxRequests) := by
  refine ⟨?_, ?_, ?_, ?_, ?_, ?_⟩
  · intro raw target ip now b hdis
    simp [FileShare.RateLimit.checkIpRateLimit, FileShare.RateLimit.getRule, hdis]
  · intro raw target ip now b hen hnone
    simp only [FileShare.RateLimit.checkIpRateLimit, FileShare.RateLimit.getRule,
      hen, Bool.not_true, Bool.false_eq_true, if_false, hnone]
  · intro raw target ip now b bucket hen hget hstale
    simp only [FileShare.RateLimit.checkIpRateLimit, FileShare.RateLimit.getRule,
      hen, Bool.not_true, Bool.false_eq_true, if_false, hget, if_pos hstale]
  · intro raw target ip now b bucket hen hget hfresh hfull
    constructor
    · simp only [FileShare.RateLimit.checkIpRateLimit, FileShare.RateLimit.getRule,
        hen, Bool.not_true, Bool.false_eq_true, if_false, hget,
        if_neg (by omega : ¬ now - bucket.windowStart ≥ ((max 1000 raw.windowMs : Nat) : Int)),
        if_pos hfull]
    · intro hts
      have hle : (max 0 (((max 1000 raw.windowMs : Nat) : Int) -
          (now - bucket.windowStart))).toNat + 999 ≤ max 1000 raw.windowMs + 999 := by
        omega
      exact Nat.div_le_div_right hle
  · intro raw target ip now b bucket hen hget hfresh hroom
    simp only [FileShare.RateLimit.checkIpRateLimit, FileShare.RateLimit.getRule,
      hen, Bool.not_true, Bool.false_eq_true, if_false, hget,
      if_neg (by omega : ¬ now - bucket.windowStart ≥ ((max 1000 raw.windowMs : Nat) : Int)),
      if_neg (by omega : ¬ bucket.count ≥ max 1 raw.maxRequests)]
  · intro raw target ip t rest hen hwin
    have hstep : FileShare.RateLimit.checkIpRateLimit raw target ip t [] =
        ({ allowed := true, limit := some (max 1 raw.maxRequests),
           remaining := some (max 1 raw.maxRequests - 1) },
         FileShare.mapSet [] (FileShare.RateLimit.rlKey target ip) ⟨1, t⟩) := by
      simp only [FileShare.RateLimit.checkIpRateLimit, FileShare.RateLimit.getRule,
        hen, Bool.not_true, Bool.false_eq_true, if_false]
      rfl
    have hrest := FileShare.RateLimit.run_inWindow_allowed_le raw hen target ip rest 1 t
      (FileShare.mapSet [] (FileShare.RateLimit.rlKey target ip) ⟨1, t⟩)
      (FileShare.mapGet_mapSet_self _ _ _) (by omega) hwin
    simp only [FileShare.RateLimit.runRateChecks, hstep]
    rw [FileShare.RateLimit.countAllowed_cons]
    simp only [if_pos rfl, if_true]
    have h1M : 1 ≤ max 1 raw.maxRequests := Nat.le_max_left _ _
    generalize hM : max 1 raw.maxRequests = M at hrest h1M ⊢
    omega

/-- Witness for C5: three requests inside one window under the rule
maxRequests 2, windowMs 1000 yield at most 2 allowed responses. -/
theorem C5_witness :
    FileShare.RateLimit.countAllowed
        (FileShare.RateLimit.runRateChecks ⟨true, 2, 1000⟩ "download" "1.2.3.4"
          [0, 1, 2] []).1 ≤ max 1 2 :=
  C5_rate_limit_amended.2.2.2.2.2 ⟨true, 2, 1000⟩ "download" "1.2.3.4" 0 [1, 2]
    (by decide) (by decide)

/-- C5 counterexample: with maxRequests 2 and windowMs 1000 the four
requests at 0, 999, 1000 and 1001 are all allowed, although the requests
at 999, 1000 and 1001 lie inside one window of length 1000 — three allowed
requests in a window of length windowMs, contradicting the claim that at
most maxRequests are allowed within any window of that length. -/
theorem C5_counterexample :
    ((FileShare.RateLimit.runRateChecks ⟨true, 2, 1000⟩ "download" "1.2.3.4"
        [0, 999, 1000, 1001] []).1.map
      (fun r => r.allowed)) = [true, true, true, true] ∧
    ((999 : Int) ≤ 999 ∧ (999 : Int) < 999 + 1000) ∧
    ((999 : Int) ≤ 1000 ∧ (1000 : Int) < 999 + 1000) ∧
    ((999 : Int) ≤ 1001 ∧ (1001 : Int) < 999 + 1000) := by
  constructor
  · rfl
  · decide

/-- C7 (amended): normalizeAndMigrate is idempotent for every input,
every module registry and every migration registry; inputs with no
numeric settings-version (null, non-objects, arrays, bare module maps)
come out at CURRENT_SETTINGS_VERSION; a numeric-version file comes out at
CURRENT_SETTINGS_VERSION when its version is below it but keeps its own
larger version otherwise (the migration loop only runs upward); and the
output's modules map holds a value for every registered module key. -/
theorem C7_normalize_amended :
    (∀ (registry : List (String × FileShare.Settings.Json))
        (migs : Int → Option (FileShare.Settings.SettingsFile → FileShare.Settings.Json))
        (x : FileShare.Settings.Json),
      FileShare.Settings.normalizeAndMigrate registry migs
          (FileShare.Settings.toJson
            (FileShare.Settings.normalizeAndMigrate registry migs x)) =
        FileShare.Settings.normalizeAndMigrate registry migs x) ∧
    (∀ (registry : List (String × FileShare.Settings.Json))
        (migs : Int → Option (FileShare.Settings.SettingsFile → FileShare.Settings.Json))
        (x : FileShare.Settings.Json),
      FileShare.Settings.rawVersionOf x = none →
      (FileShare.Settings.normalizeAndMigrate registry migs x).version =
        FileShare.Settings.CURRENT_SETTINGS_VERSION) ∧
    (∀ (registry : List (String × FileShare.Settings.Json))
        (migs : Int → Option (FileShare.Settings.SettingsFile → FileShare.Settings.Json))
        (x : FileShare.Settings.Json) (v : Int),
      FileShare.Settings.rawVersionOf x = some v →
      (FileShare.Settings.normalizeAndMigrate registry migs x).version =
        (if v < FileShare.Settings.CURRENT_SETTINGS_VERSION then
          FileShare.Settings.CURRENT_SETTINGS_VERSION else v)) ∧
    (∀ (registry : List (String × FileShare.Settings.Json))
        (migs : Int → Option (FileShare.Settings.SettingsFile → FileShare.Settings.Json))
        (x : FileShare.Settings.Json) (p : String × FileShare.Settings.Json),
      p ∈ registry →
      FileShare.mapGet
        (FileShare.Settings.normalizeAndMigrate registry migs x).modules p.1 ≠
        none) := by
  refine ⟨?_, ?_, ?_, ?_⟩
  · intro registry migs x
    have hge := FileShare.Settings.normalizeAndMigrate_version_ge registry migs x
    obtain ⟨m0, hm0⟩ :=
      FileShare.Settings.normalizeAndMigrate_modules_merged registry migs x
    conv_lhs => rw [FileShare.Settings.normalizeAndMigrate]
    rw [FileShare.Settings.normalizeRaw_toJson]
    rw [FileShare.Settings.migrateLoop_of_ge migs _ _ hge]
    rw [hm0]
    rw [FileShare.Settings.mergeModuleDefaults_idem]
    rw [← hm0]
  · intro registry migs x hnone
    simp only [FileShare.Settings.normalizeAndMigrate]
    rw [FileShare.Settings.migrateLoop_version migs _ _ rfl]
    rw [FileShare.Settings.normalizeRaw_version_of_none hnone]
    rw [if_pos (by decide)]
  · intro registry migs x v hsome
    simp only [FileShare.Settings.normalizeAndMigrate]
    rw [FileShare.Settings.migrateLoop_version migs _ _ rfl]
    rw [FileShare.Settings.normalizeRaw_version_of_some hsome]
  · intro registry migs x p hp
    simp only [FileShare.Settings.normalizeAndMigrate]
    exact FileShare.Settings.mergeModuleDefaults_mem_ne_none _ _ p hp

/-- Witness for C7: a version-1 file is migrated to the current version 3. -/
theorem C7_witness :
    (FileShare.Settings.normalizeAndMigrate [] (fun _ => none)
        (FileShare.Settings.Json.obj
          [("settings-version", FileShare.Settings.Json.num 1)])).version =
      (if (1 : Int) < FileShare.Settings.CURRENT_SETTINGS_VERSION then
        FileShare.Settings.CURRENT_SETTINGS_VERSION else 1) :=
  C7_normalize_amended.2.2.1 [] (fun _ => none)
    (FileShare.Settings.Json.obj
      [("settings-version", FileShare.Settings.Json.num 1)]) 1 rfl

/-- C7 counterexample: the numeric-version file with settings-version 4
keeps version 4 after normalizeAndMigrate, while CURRENT_SETTINGS_VERSION
is 3 — so the claim that every numeric-version file comes out at
CURRENT_SETTINGS_VERSION is false. -/
theorem C7_counterexample :
    (FileShare.Settings.normalizeAndMigrate [] (fun _ => none)
        (FileShare.Settings.Json.obj
          [("settings-version", FileShare.Settings.Json.num 4)])).version = 4 ∧
    FileShare.Settings.CURRENT_SETTINGS_VERSION = 3 := by
  constructor
  · rfl
  · rfl

/-- C2 (amended): for a regular non-playlist file of size N served via GET
with Range "bytes=s-e", where s ≤ e and s < N, serveFile answers 206 with
Content-Range "bytes s-e'/N" and Content-Length e'-s+1 for e' the end
clamped to N-1, and a body equal to the byte slice from s through e'; when
the stored bytes have length N that slice has exactly e'-s+1 bytes.  (The
claim as stated is refuted by playlist files, whose extension bypasses the
Range engine — see the counterexample.) -/
theorem C2_range_amended
    (env : FileShare.Files.FileEnv) (rootReal relPath : String)
    (req : FileShare.Files.ReqModel) (filePath : String) (st : FileShare.FStat)
    (s e : Nat)
    (hsafe : FileShare.Files.safePath env.rp rootReal relPath = some filePath)
    (hstat : env.statO filePath = some st)
    (hdir : st.isDir = false)
    (hext8 : FileShare.lowerStr (FileShare.extnameStr filePath) ≠ ".m3u8")
    (hextm : FileShare.lowerStr (FileShare.extnameStr filePath) ≠ ".m3u")
    (hmeth : req.method ≠ "HEAD")
    (hrange : req.rangeHeader =
      some ("bytes=" ++ FileShare.natToStr s ++ "-" ++ FileShare.natToStr e))
    (hse : s ≤ e) (hsN : s < st.size) :
    FileShare.Files.serveFile env rootReal relPath req =
      ⟨206,
       [("Content-Type", FileShare.Files.getMime filePath),
        ("Content-Range", "bytes " ++ FileShare.natToStr s ++ "-" ++
          FileShare.natToStr (min e (st.size - 1)) ++ "/" ++
          FileShare.natToStr st.size),
        ("Content-Length", FileShare.natToStr (min e (st.size - 1) - s + 1)),
        ("Accept-Ranges", "bytes")] ++
         (if FileShare.Files.shouldForceDownload req then
            [("Content-Disposition", FileShare.Files.buildContentDisposition filePath)]
          else []),
       FileShare.Files.RespBody.bytes
         (((env.bytesO filePath).take (min e (st.size - 1) + 1)).drop s)⟩ ∧
    ((env.bytesO filePath).length = st.size →
      (((env.bytesO filePath).take (min e (st.size - 1) + 1)).drop s).length =
        min e (st.size - 1) - s + 1) := by
  have hne := FileShare.Files.bytesHeader_ne_empty s e
  have hgetD : req.rangeHeader.getD "" =
      "bytes=" ++ FileShare.natToStr s ++ "-" ++ FileShare.natToStr e := by
    rw [hrange]
    rfl
  refine ⟨?_, ?_⟩
  · simp only [FileShare.Files.serveFile, hsafe, hstat, hdir, Bool.false_eq_true,
      if_false, hgetD]
    rw [if_neg (fun hcond => hne hcond.2.2.1)]
    rw [if_neg (fun hor => Or.elim hor hext8 hextm)]
    rw [if_neg hmeth]
    rw [if_pos hne]
    simp only [FileShare.Files.parseRange_closed s e st.size hse hsN]
    rw [if_neg (by omega :
      ¬ (s ≥ st.size ∨ min e (st.size - 1) ≥ st.size ∨ s > min e (st.size - 1)))]
  · intro hlen
    rw [List.length_drop, List.length_take, hlen]
    omega

/-- C2 witness: on the ten-byte file a.bin with Range bytes=2-5 the server
answers 206, Content-Range bytes 2-5/10, Content-Length 4 and the byte
slice 2 through 5. -/
theorem C2_witness :
    FileShare.Files.serveFile FileShare.Files.envC2 "/root" "a.bin"
        FileShare.Files.reqC2 =
      ⟨206,
       [("Content-Type", "application/octet-stream"),
        ("Content-Range", "bytes 2-5/10"),
        ("Content-Length", "4"),
        ("Accept-Ranges", "bytes")],
       FileShare.Files.RespBody.bytes [2, 3, 4, 5]⟩ := by
  have h := C2_range_amended FileShare.Files.envC2 "/root" "a.bin"
    FileShare.Files.reqC2 "/root/a.bin" ⟨10, false, 0⟩ 2 5
    (by decide) (by decide) (by decide) (by decide) (by decide) (by decide)
    (by decide) (by decide) (by decide)
  exact h.1.trans (by decide)

/-- C2 counterexample: a.m3u8 is a regular ten-byte file and the request
carries the valid range bytes=2-5, yet serveFile answers 200 with the
whole rewritten playlist — the extension branch bypasses the Range
engine, refuting the claim for playlist files. -/
theorem C2_counterexample :
    (FileShare.Files.serveFile FileShare.Files.envC2m "/root" "a.m3u8"
        FileShare.Files.reqC2).status = 200 ∧
    (FileShare.Files.serveFile FileShare.Files.envC2m "/root" "a.m3u8"
        FileShare.Files.reqC2).status ≠ 206 := by
  decide

/-- C9: whenever safePath accepts the request path of a regular file,
download is forced, the method is GET, no Range header is present and the
User-Agent matches one of the social-preview bot substrings, serveFile
answers 200 text/html with the unfurl page — not the file bytes — and
that page contains the OpenGraph metadata, the Twitter-card metadata and
the per-file download count. -/
theorem C9_social_preview
    (env : FileShare.Files.FileEnv) (rootReal relPath : String)
    (req : FileShare.Files.ReqModel) (filePath : String) (st : FileShare.FStat)
    (hsafe : FileShare.Files.safePath env.rp rootReal relPath = some filePath)
    (hstat : env.statO filePath = some st)
    (hdir : st.isDir = false)
    (hforce : FileShare.Files.shouldForceDownload req = true)
    (hmeth : req.method = "GET")
    (hrng : req.rangeHeader = none)
    (hbot : FileShare.Files.isSocialPreviewRequest req = true) :
    FileShare.Files.serveFile env rootReal relPath req =
      ⟨200,
       [("Content-Type", "text/html; charset=utf-8"), ("Cache-Control", "no-store")],
       FileShare.Files.RespBody.text
         (FileShare.Files.buildDownloadPreviewHtml env.dlCount req relPath filePath)⟩ ∧
    FileShare.strContainsSub
      (FileShare.Files.buildDownloadPreviewHtml env.dlCount req relPath filePath)
      "og:title" = true ∧
    FileShare.strContainsSub
      (FileShare.Files.buildDownloadPreviewHtml env.dlCount req relPath filePath)
      "twitter:card" = true ∧
    FileShare.strContainsSub
      (FileShare.Files.buildDownloadPreviewHtml env.dlCount req relPath filePath)
      (FileShare.natToStr (env.dlCount (FileShare.backslashToSlash relPath))) =
      true := by
  refine ⟨?_, ?_, ?_, ?_⟩
  · simp only [FileShare.Files.serveFile, hsafe, hstat, hdir, Bool.false_eq_true,
      if_false]
    rw [if_pos ⟨hforce, hmeth, by rw [hrng]; rfl, hbot⟩]
  · simp only [FileShare.Files.buildDownloadPreviewHtml]
    iterate 18 apply FileShare.Files.strContainsSub_append_left
    apply FileShare.Files.strContainsSub_append_right
    decide
  · simp only [FileShare.Files.buildDownloadPreviewHtml]
    iterate 12 apply FileShare.Files.strContainsSub_append_left
    apply FileShare.Files.strContainsSub_append_right
    decide
  · simp only [FileShare.Files.buildDownloadPreviewHtml]
    iterate 19 apply FileShare.Files.strContainsSub_append_left
    apply FileShare.Files.strContainsSub_append_right
    rw [FileShare.Files.escapeHtml_append, FileShare.Files.escapeHtml_append]
    rw [FileShare.Files.escapeHtml_digits _ (FileShare.Files.natToStr_all_digits _)]
    apply FileShare.Files.strContainsSub_append_left
    apply FileShare.Files.strContainsSub_append_right
    exact FileShare.Files.strContainsSub_self _

/-- C9 witness: the Discordbot request for b.bin with download forced and
no Range header receives the unfurl page, which mentions og:title,
twitter:card, and the download count 7. -/
theorem C9_witness :
    FileShare.Files.serveFile FileShare.Files.envC9 "/root" "b.bin"
        FileShare.Files.reqC9 =
      ⟨200,
       [("Content-Type", "text/html; charset=utf-8"), ("Cache-Control", "no-store")],
       FileShare.Files.RespBody.text
         (FileShare.Files.buildDownloadPreviewHtml FileShare.Files.envC9.dlCount
           FileShare.Files.reqC9 "b.bin" "/root/b.bin")⟩ ∧
    FileShare.strContainsSub
      (FileShare.Files.buildDownloadPreviewHtml FileShare.Files.envC9.dlCount
        FileShare.Files.reqC9 "b.bin" "/root/b.bin") "og:title" = true ∧
    FileShare.strContainsSub
      (FileShare.Files.buildDownloadPreviewHtml FileShare.Files.envC9.dlCount
        FileShare.Files.reqC9 "b.bin" "/root/b.bin") "twitter:card" = true ∧
    FileShare.strContainsSub
      (FileShare.Files.buildDownloadPreviewHtml FileShare.Files.envC9.dlCount
        FileShare.Files.reqC9 "b.bin" "/root/b.bin")
      (FileShare.natToStr
        (FileShare.Files.envC9.dlCount (FileShare.backslashToSlash "b.bin"))) =
      true := by
  exact C9_social_preview FileShare.Files.envC9 "/root" "b.bin"
    FileShare.Files.reqC9 "/root/b.bin" ⟨4, false, 0⟩
    (by decide) (by decide) (by decide) (by decide) (by decide) (by decide)
    (by decide)

/-- C6 (amended): for every authenticated FTP session whose user is
anonymous (for which renameFrom is always none, since RNFR refuses
anonymous users before setting it), each of STOR, MKD/XMKD, RMD/XRMD,
DELE and RNFR with a nonempty argument is refused with a 550 reply, no
filesystem effect and an unchanged session — but RNTO is refused with
reply 503, not 550, again with no filesystem effect. -/
theorem C6_anonymous_write_refused
    (rp : String → Option String) (dataOk : Bool)
    (st : FileShare.Ftp.FtpSession) (cmd arg : String)
    (hanon : st.username = "anonymous")
    (hrf : st.renameFrom = none)
    (hcmd : cmd ∈ (["STOR", "MKD", "XMKD", "RMD", "XRMD", "DELE", "RNFR"] :
      List String))
    (harg : arg ≠ "") :
    (∃ reply, FileShare.Ftp.ftpDispatch rp dataOk st cmd arg =
        some ⟨reply, [], st⟩ ∧
      FileShare.strStartsWith reply "550" = true) ∧
    FileShare.Ftp.ftpDispatch rp dataOk st "RNTO" arg =
      some ⟨"503 RNFR required first.\r\n", [], st⟩ := by
  have hcmd2 : cmd = "STOR" ∨ cmd = "MKD" ∨ cmd = "XMKD" ∨ cmd = "RMD" ∨
      cmd = "XRMD" ∨ cmd = "DELE" ∨ cmd = "RNFR" := by simpa using hcmd
  constructor
  · rcases hcmd2 with rfl | rfl | rfl | rfl | rfl | rfl | rfl
    · exact ⟨"550 Permission denied (read-only).\r\n",
        by simp [FileShare.Ftp.ftpDispatch, harg, hanon], by decide⟩
    · exact ⟨"550 Permission denied.\r\n",
        by simp [FileShare.Ftp.ftpDispatch, harg, hanon], by decide⟩
    · exact ⟨"550 Permission denied.\r\n",
        by simp [FileShare.Ftp.ftpDispatch, harg, hanon], by decide⟩
    · exact ⟨"550 Permission denied.\r\n",
        by simp [FileShare.Ftp.ftpDispatch, harg, hanon], by decide⟩
    · exact ⟨"550 Permission denied.\r\n",
        by simp [FileShare.Ftp.ftpDispatch, harg, hanon], by decide⟩
    · exact ⟨"550 Permission denied.\r\n",
        by simp [FileShare.Ftp.ftpDispatch, harg, hanon], by decide⟩
    · exact ⟨"550 Permission denied.\r\n",
        by simp [FileShare.Ftp.ftpDispatch, harg, hanon], by decide⟩
  · simp [FileShare.Ftp.ftpDispatch, hrf]

/-- C6 witness: the anonymous session under /srv sending STOR f.txt is
refused with a 550 reply and no filesystem effect, and its RNTO f.txt is
refused with the 503 reply. -/
theorem C6_witness :
    (∃ reply, FileShare.Ftp.ftpDispatch (fun _ => none) true FileShare.Ftp.stC6
        "STOR" "f.txt" = some ⟨reply, [], FileShare.Ftp.stC6⟩ ∧
      FileShare.strStartsWith reply "550" = true) ∧
    FileShare.Ftp.ftpDispatch (fun _ => none) true FileShare.Ftp.stC6
      "RNTO" "f.txt" =
      some ⟨"503 RNFR required first.\r\n", [], FileShare.Ftp.stC6⟩ := by
  exact C6_anonymous_write_refused (fun _ => none) true FileShare.Ftp.stC6
    "STOR" "f.txt" rfl rfl (by decide) (by decide)

/-- C6 counterexample: for the anonymous session the write command RNTO is
refused with a reply starting 503, not 550 as claimed — the RNTO branch
checks only the missing RNFR state and has no anonymous check at all. -/
theorem C6_counterexample :
    FileShare.Ftp.ftpDispatch (fun _ => none) true FileShare.Ftp.stC6
      "RNTO" "g.txt" =
      some ⟨"503 RNFR required first.\r\n", [], FileShare.Ftp.stC6⟩ ∧
    FileShare.strStartsWith "503 RNFR required first.\r\n" "550" = false := by
  decide

/-- C8 (amended): for an eligible cached source (below the 1 GiB no-cache
threshold) with no playlist and no metadata on disk yet and a successful
duration probe, the playlist request synthesizes the VOD playlist in
memory, serves it rewritten with status 200 — the raw playlist contains
the EXT-X-ENDLIST finalizer — while the only filesystem effects are
creating the cache directory, writing meta.json and touching the cache
directory: no effect ever writes or creates index.m3u8, so no subsequent
request can find a finalized playlist on disk.  (This refutes the claim
that the synthesized playlist is persisted as index.m3u8.) -/
theorem C8_playlist_amended
    (env : FileShare.Stream.StreamEnv)
    (mem : List (String × FileShare.Stream.SourceMeta)) (segMs : Int)
    (rootReal relPath : String) (source : FileShare.Stream.ResolvedSource)
    (d : Int)
    (hres : FileShare.Stream.resolveSource env rootReal relPath =
      .ok (some source))
    (hnc : source.noCache = false)
    (hnopl : env.existsO source.playlistAbsPath = false)
    (hnometa : env.existsO (source.cacheDir ++ "/meta.json") = false)
    (hprobe : env.probeO source.sourceAbsPath = some d) :
    FileShare.Stream.handleHlsPlaylist env mem segMs rootReal relPath =
      (⟨200, FileShare.Stream.hlsHeaders,
        FileShare.Files.RespBody.text
          (FileShare.Stream.rewritePlaylist
            (FileShare.Stream.vodPlaylistRaw
              ⟨d, (max 1 (FileShare.Stream.ceilDivInt d segMs)).toNat, segMs⟩ segMs)
            source.sourceRelPath)⟩,
       [FileShare.Stream.StreamEff.mkdirRec source.cacheDir,
        FileShare.Stream.StreamEff.fsWrite (source.cacheDir ++ "/meta.json"),
        FileShare.Stream.StreamEff.touch source.cacheDir]) ∧
    FileShare.strContainsSub
      (FileShare.Stream.vodPlaylistRaw
        ⟨d, (max 1 (FileShare.Stream.ceilDivInt d segMs)).toNat, segMs⟩ segMs)
      "#EXT-X-ENDLIST" = true ∧
    ∀ e ∈ [FileShare.Stream.StreamEff.mkdirRec source.cacheDir,
        FileShare.Stream.StreamEff.fsWrite (source.cacheDir ++ "/meta.json"),
        FileShare.Stream.StreamEff.touch source.cacheDir],
      FileShare.Stream.effTargets (source.cacheDir ++ "/index.m3u8") e = false := by
  refine ⟨?_, ?_, ?_⟩
  · simp [FileShare.Stream.handleHlsPlaylist, FileShare.Stream.ensureHlsGenerated,
      FileShare.Stream.getSourceMeta, hres, hnc, hnopl, hnometa, hprobe]
  · simp only [FileShare.Stream.vodPlaylistRaw]
    apply FileShare.Files.strContainsSub_append_left
    apply FileShare.Stream.joinSep_contains
    simp
  · intro e he
    rcases List.mem_cons.mp he with h1 | h1
    · subst h1
      simp [FileShare.Stream.effTargets,
        FileShare.Stream.string_ne_self_append_index source.cacheDir]
    · rcases List.mem_cons.mp h1 with h2 | h2
      · subst h2
        simp [FileShare.Stream.effTargets,
          FileShare.Stream.meta_ne_index source.cacheDir]
      · rcases List.mem_cons.mp h2 with h3 | h3
        · subst h3
          rfl
        · exact absurd h3 (List.not_mem_nil e)

/-- C8 witness: for the 100 MiB cached source v.mp4 with a probed duration
of 10 s and 6 s segments the handler serves the in-memory VOD playlist and
writes only the cache directory, meta.json and the access time. -/
theorem C8_witness :
    FileShare.Stream.handleHlsPlaylist FileShare.Stream.envC8 [] 6000
        "/share" "v.mp4" =
      (⟨200, FileShare.Stream.hlsHeaders,
        FileShare.Files.RespBody.text
          (FileShare.Stream.rewritePlaylist
            (FileShare.Stream.vodPlaylistRaw ⟨10000, 2, 6000⟩ 6000) "v.mp4")⟩,
       [FileShare.Stream.StreamEff.mkdirRec "/hls/RK/SK",
        FileShare.Stream.StreamEff.fsWrite "/hls/RK/SK/meta.json",
        FileShare.Stream.StreamEff.touch "/hls/RK/SK"]) ∧
    FileShare.strContainsSub
      (FileShare.Stream.vodPlaylistRaw ⟨10000, 2, 6000⟩ 6000)
      "#EXT-X-ENDLIST" = true := by
  have h := C8_playlist_amended FileShare.Stream.envC8 [] 6000 "/share" "v.mp4"
    ⟨"/share/v.mp4", "v.mp4", "/hls/RK/SK", "/hls/RK/SK/index.m3u8",
      104857600, false⟩ 10000 rfl rfl rfl rfl rfl
  exact ⟨h.1.trans (by decide), h.2.1⟩

/-- C8 counterexample: the successful playlist request for the eligible
cached source v.mp4 (duration probed) answers 200, yet its effect trace
writes meta.json only — no effect targets index.m3u8, and index.m3u8 did
not exist beforehand, so a subsequent request cannot find a finalized
playlist on disk, refuting the persistence claim. -/
theorem C8_counterexample :
    (FileShare.Stream.handleHlsPlaylist FileShare.Stream.envC8 [] 6000
      "/share" "v.mp4").1.status = 200 ∧
    (FileShare.Stream.handleHlsPlaylist FileShare.Stream.envC8 [] 6000
      "/share" "v.mp4").2 =
      [FileShare.Stream.StreamEff.mkdirRec "/hls/RK/SK",
       FileShare.Stream.StreamEff.fsWrite "/hls/RK/SK/meta.json",
       FileShare.Stream.StreamEff.touch "/hls/RK/SK"] ∧
    (FileShare.Stream.handleHlsPlaylist FileShare.Stream.envC8 [] 6000
      "/share" "v.mp4").2.filter
      (FileShare.Stream.effTargets "/hls/RK/SK/index.m3u8") = [] ∧
    FileShare.Stream.envC8.existsO "/hls/RK/SK/index.m3u8" = false := by
  decide
